import Mathlib

/-
  Verification of the Texas Hold'em lobby server.

  The repository contains two near-duplicate server variants:
  * `src/server.js`          — embedded below in namespace `Srv` (shared parts at top level),
  * `src/unnamed/part_000`   — embedded in namespace `P0` where it differs from `server.js`.

  JavaScript numbers holding chip quantities are modelled as `Int` (all the arithmetic the
  server performs on them is integer arithmetic: `Math.floor`, `Math.min`, `Math.max`, `+`,
  `-`, and `Math.floor(a / b)` which on the reachable non-negative values is floor division,
  `Int.fdiv`).  Seat index fields that the code guards with `typeof x === "number"` are
  modelled as `Option Int` (`none` = the field was never assigned, i.e. `undefined`).
  Randomness (`shuffle`, `Math.random`) is modelled by passing the random outcome (a fresh
  deck, a list of random draws) as an explicit parameter.  `setTimeout` bodies (the deferred
  showdown payouts) are modelled as separate state-transition functions.
-/

namespace Holdem

/-! ## Cards and deck (`server.js` lines 35-57, identical in `part_000`) -/

structure Card where
  r : String
  s : String
deriving DecidableEq, Repr, Inhabited

def SUITS : List String := ["♠", "♥", "♦", "♣"]

def RANKS : List String := ["2", "3", "4", "5", "6", "7", "8", "9", "T", "J", "Q", "K", "A"]

/-- `RANK_VAL[r]`: position of `r` in `RANKS` plus 2, i.e. 2..14. -/
def RANK_VAL (r : String) : Int := (RANKS.indexOf r : Int) + 2

def createDeck : List Card :=
  SUITS.flatMap (fun s => RANKS.map (fun r => { r := r, s := s }))

/-- Alphabet used by `generateLobbyId` (`server.js` line 53). -/
def LOBBY_ID_CHARS : List Char := "ABCDEFGHJKLMNPQRSTUVWXYZ23456789".toList

/-- `generateLobbyId`: five characters drawn from `LOBBY_ID_CHARS`; the random draws
`Math.floor(Math.random() * chars.length)` are modelled by `randoms.getD i 0 % 32`. -/
def generateLobbyId (randoms : List Nat) : List Char :=
  (List.range 5).map (fun i => LOBBY_ID_CHARS.getD ((randoms.getD i 0) % LOBBY_ID_CHARS.length) 'A')

/-! ## Hand evaluator (`server.js` lines 63-142, identical in `part_000`) -/

/-- `combinations(arr, k)` — all k-element sublists, in the enumeration order of the
recursive `choose` in the source. -/
def combinations : List α → Nat → List (List α)
  | _, 0 => [[]]
  | [], _ + 1 => []
  | x :: xs, k + 1 => (combinations xs k).map (fun c => x :: c) ++ combinations xs (k + 1)

/-- Descending insertion step for `sort((a, b) => b - a)`. -/
def insertDesc (x : Int) : List Int → List Int
  | [] => [x]
  | y :: ys => if x ≥ y then x :: y :: ys else y :: insertDesc x ys

/-- `array.sort((a, b) => b - a)`: the comparator totally orders `Int`, so any sorting
algorithm yields the unique descending reordering; we use insertion sort. -/
def sortDesc (l : List Int) : List Int := l.foldr insertDesc []

/-- One step of building the JS `Map` of rank counts: `counts.set(v, (counts.get(v) || 0) + 1)`.
A JS `Map` preserves first-insertion order, modelled as an association list. -/
def bumpCount (acc : List (Int × Nat)) (v : Int) : List (Int × Nat) :=
  if acc.any (fun p => p.1 == v) then
    acc.map (fun p => if p.1 == v then (p.1, p.2 + 1) else p)
  else acc ++ [(v, 1)]

/-- The `counts` map of `rank5`, as an insertion-ordered association list. -/
def countsList (ranks : List Int) : List (Int × Nat) := ranks.foldl bumpCount []

/-- Comparator `(a, b) => b[1] - a[1] !== 0 ? b[1] - a[1] : b[0] - a[0]` as a
"goes-no-later-than" test: count descending, then value descending. -/
def pairBefore (a b : Int × Nat) : Bool := b.2 < a.2 || (a.2 == b.2 && b.1 ≤ a.1)

def insertPair (x : Int × Nat) : List (Int × Nat) → List (Int × Nat)
  | [] => [x]
  | y :: ys => if pairBefore x y then x :: y :: ys else y :: insertPair x ys

/-- `byCountDesc`: count entries sorted by count descending then value descending. -/
def sortPairs (l : List (Int × Nat)) : List (Int × Nat) := l.foldr insertPair []

/-- `[...new Set(ranks)]` — deduplication preserving first-occurrence order. -/
def uniqueList (l : List Int) : List Int :=
  l.foldl (fun acc v => if v ∈ acc then acc else acc ++ [v]) []

/-- The `for` loop of `getStraightHigh` (`server.js` lines 121-129): scan index `i`,
maintaining the current run length; on `run >= 5` return `vals[i-4]`.  Structural
fuel = `vals.length` makes the finite loop kernel-reducible. -/
def straightScanAux (vals : List Int) : Nat → Nat → Nat → Int
  | 0, _, _ => 0
  | fuel + 1, i, run =>
    if i < vals.length then
      let run' :=
        if 0 < i then
          if vals.getD i 0 == vals.getD (i - 1) 0 - 1 then run + 1
          else if vals.getD i 0 != vals.getD (i - 1) 0 then 1
          else run
        else run
      if 5 ≤ run' then vals.getD (i - 4) 0
      else straightScanAux vals fuel (i + 1) run'
    else 0

def straightScan (vals : List Int) : Int := straightScanAux vals vals.length 0 1

/-- `getStraightHigh(vals)` (`server.js` lines 119-133): move 14 to the front if present,
scan for a run of 5, then the wheel special case `A-2-3-4-5 → 5`. -/
def getStraightHigh (vals0 : List Int) : Int :=
  let vals := if (14 : Int) ∈ vals0 then 14 :: vals0.filter (fun v => v ≠ 14) else vals0
  let best := straightScan vals
  if best == 0 && decide ((14 : Int) ∈ vals) && decide ((5 : Int) ∈ vals) &&
      decide ((4 : Int) ∈ vals) && decide ((3 : Int) ∈ vals) && decide ((2 : Int) ∈ vals) then 5
  else best

/-- `suits.every(s => s === suits[0])` for the suits of `cards`. -/
def isFlushB (cards : List Card) : Bool :=
  (cards.map Card.s).all (fun s => s == (cards.map Card.s).headD "")

/-- Body of `rank5` after its two projections: everything below the first two lines of
`rank5` (`server.js` lines 90-116) depends only on the descending rank values and on
whether the hand is a flush; `rank5` below supplies both. -/
def rank5Ranks (ranks : List Int) (isFl : Bool) : List Int :=
  let byCountDesc := sortPairs (countsList ranks)
  let unique := uniqueList ranks
  let straightHigh := getStraightHigh unique
  let isStraight := straightHigh > 0
  let c0 := byCountDesc.getD 0 (0, 0)
  if isFl && decide isStraight then [8, straightHigh]
  else if c0.2 == 4 then
    [7, c0.1, ((byCountDesc.find? (fun pc => pc.2 == 1)).getD (0, 0)).1]
  else if c0.2 == 3 && decide (1 < byCountDesc.length) && (byCountDesc.getD 1 (0, 0)).2 == 2 then
    [6, c0.1, (byCountDesc.getD 1 (0, 0)).1]
  else if isFl then 5 :: ranks
  else if decide isStraight then [4, straightHigh]
  else if c0.2 == 3 then
    3 :: c0.1 :: sortDesc ((byCountDesc.filter (fun pc => pc.2 == 1)).map Prod.fst)
  else if c0.2 == 2 && decide (1 < byCountDesc.length) && (byCountDesc.getD 1 (0, 0)).2 == 2 then
    let p1 := max c0.1 (byCountDesc.getD 1 (0, 0)).1
    let p2 := min c0.1 (byCountDesc.getD 1 (0, 0)).1
    let kicker := ((byCountDesc.find? (fun pc => pc.2 == 1)).getD (0, 0)).1
    [2, p1, p2, kicker]
  else if c0.2 == 2 then
    1 :: c0.1 :: sortDesc ((byCountDesc.filter (fun pc => pc.2 == 1)).map Prod.fst)
  else 0 :: ranks

/-- `rank5(cards)` (`server.js` lines 87-117). -/
def rank5 (cards : List Card) : List Int :=
  rank5Ranks (sortDesc (cards.map (fun c => RANK_VAL c.r))) (isFlushB cards)

/-- `i < max(a.length, b.length)` view of a rank tuple: `a[i] ?? -1`. -/
def padTo (l : List Int) (n : Nat) : List Int :=
  (List.range n).map (fun i => l.getD i (-1))

/-- First-difference scan: walk two equal-length padded tuples and return `av - bv` at the
first position where they differ, else 0.  This is the loop body of `compareRanks`. -/
def fdz : List Int → List Int → Int
  | x :: xs, y :: ys => if x ≠ y then x - y else fdz xs ys
  | _, _ => 0

/-- `compareRanks(a, b)` (`server.js` lines 135-142): for `i` up to the longer length,
compare `a[i] ?? -1` with `b[i] ?? -1`; return the first nonzero difference, else 0. -/
def compareRanks (a b : List Int) : Int :=
  fdz (padTo a (max a.length b.length)) (padTo b (max a.length b.length))

/-- `evaluateBestOfSeven(cards7)` (`server.js` lines 77-85): best `rank5` over all
5-card subsets; the loop seeds `best` with the first combination's rank. -/
def evaluateBestOfSeven (cards7 : List Card) : List Int :=
  match (combinations cards7 5).map rank5 with
  | [] => []
  | r :: rs => rs.foldl (fun best rk => if compareRanks rk best > 0 then rk else best) r

/-! ## Data model (`server.js` lobby/player objects; `part_000` lines 46-58) -/

structure Settings where
  startChips : Int
  rounds : Int
  smallBlind : Int
  bigBlind : Int
deriving DecidableEq, Repr

structure Player where
  id : String
  name : String
  socketId : String
  isHost : Bool
  chips : Int
  folded : Bool
  bet : Int
  hasActed : Bool
  hand : List Card
deriving DecidableEq, Repr

instance : Inhabited Player :=
  ⟨{ id := "", name := "", socketId := "", isHost := false, chips := 0, folded := false,
     bet := 0, hasActed := false, hand := [] }⟩

structure Lobby where
  id : List Char
  hostId : String
  status : String
  settings : Settings
  players : List Player
  roundNumber : Nat
  dealerIndex : Option Int
  smallBlindIndex : Option Int
  bigBlindIndex : Option Int
  currentPlayerIndex : Option Int
  deck : List Card
  community : List Card
  pot : Int
  currentBet : Int
  phase : String
deriving DecidableEq, Repr

/-- Total chips in circulation in a lobby: the conserved quantity of claim C2. -/
def chipSum (l : Lobby) : Int := (l.players.map Player.chips).sum + l.pot

/-- In-place mutation of the player object at seat `i` (JS aliases `const p = players[i]`
and mutates `p`); out-of-range indices leave the list unchanged. -/
def updateAt : List Player → Nat → (Player → Player) → List Player
  | [], _, _ => []
  | p :: ps, 0, f => f p :: ps
  | p :: ps, n + 1, f => p :: updateAt ps n f

/-- `players.forEach((p, i) => ...)` with an index-dependent update. -/
def mapWithIdx (f : Nat → Player → Player) : List Player → List Player :=
  go 0
where
  go : Nat → List Player → List Player
    | _, [] => []
    | i, p :: ps => f i p :: go (i + 1) ps

/-- `deck.pop()`: removes and returns the LAST element of a JS array.  Popping an empty
deck yields `undefined` in JS (never reached with ≤4 players); modelled by `default`. -/
def popOne (d : List Card) : Card × List Card := (d.getLastD default, d.dropLast)

/-- `makePlayer(socketId, name, isHost, startChips)` (`server.js` lines 626-638).
`String(name).slice(0, 20)` truncates to 20 characters. -/
def makePlayer (socketId name : String) (isHost : Bool) (startChips : Int) : Player :=
  { id := socketId, name := name.take 20, socketId := socketId, isHost := isHost,
    chips := startChips, folded := false, bet := 0, hasActed := false, hand := [] }

/-! ## `server.js` game flow -/

namespace Srv

/-- `applyBlind(lobby, idx, amount)` (`server.js` lines 223-229): pay
`max(0, min(chips, amount))` from the blind seat into its bet and the pot.  An
out-of-range `idx` would crash the JS handler mid-statement; modelled as a no-op
(it is never reached: `initHand` always passes indices reduced mod the seat count). -/
def applyBlind (l : Lobby) (idx : Nat) (amount : Int) : Lobby :=
  if h : idx < l.players.length then
    let p := l.players.get ⟨idx, h⟩
    let pay := max 0 (min p.chips amount)
    { l with
      players := updateAt l.players idx (fun q => { q with chips := q.chips - pay, bet := q.bet + pay })
      pot := l.pot + pay }
  else l

/-- The `for` loop of `nextActiveIndex` (`server.js` lines 235-241): up to
`players.length` steps; a seat is returned when `!folded && (chips > 0 || bet > 0)`,
or (second check in the loop body) when `!folded && chips === 0`. -/
def nextActiveAux (ps : List Player) : Nat → Nat → Int
  | 0, _ => -1
  | fuel + 1, i =>
    match ps.get? i with
    | some p =>
      if !p.folded && (p.chips > 0 || p.bet > 0) then (i : Int)
      else if !p.folded && p.chips == 0 then (i : Int)
      else nextActiveAux ps fuel ((i + 1) % ps.length)
    | none => nextActiveAux ps fuel ((i + 1) % ps.length)

/-- `nextActiveIndex(lobby, start)` (`server.js` lines 232-243). -/
def nextActiveIndex (l : Lobby) (start : Int) : Int :=
  if l.players.length = 0 then -1
  else nextActiveAux l.players l.players.length ((start.tmod l.players.length).toNat)

/-- `allOthersCalledOrFolded(lobby)` (`server.js` lines 250-252): every player is folded,
all-in (`chips === 0`), or has `bet === currentBet`.  NOTE: no `hasActed` test. -/
def allOthersCalledOrFolded (l : Lobby) : Bool :=
  l.players.all (fun p => p.folded || p.chips == 0 || p.bet == l.currentBet)

/-- `onlyOneLeft(lobby)` (`server.js` lines 254-256). -/
def onlyOneLeft (l : Lobby) : Bool :=
  (l.players.filter (fun p => !p.folded)).length == 1

/-- Tail of `advancePhase`: `currentPlayerIndex = nextActiveIndex(lobby, (dealerIndex + 1) % n)`.
An unset (`undefined`) dealer index makes the JS expression `NaN`, which
`nextActiveIndex` turns into `-1` (no array element matches index `NaN`). -/
def setCPIAfterDealer (l : Lobby) : Lobby :=
  let nxt := match l.dealerIndex with
    | some d => nextActiveIndex l ((d + 1).tmod l.players.length)
    | none => (-1 : Int)
  { l with currentPlayerIndex := some nxt }

/-- `advancePhase(lobby)` (`server.js` lines 259-282): reset per-round bets and
`hasActed`, deal community cards for the next phase, seat the first actor after the
dealer.  On `river` the phase becomes `showdown`; `showdown(lobby)` then only emits the
reveal and schedules the deferred payout (`showdownResolve` below), so the synchronous
state change stops here. -/
def advancePhase (l : Lobby) : Lobby :=
  let l1 := { l with
    players := l.players.map (fun p => { p with bet := 0, hasActed := false })
    currentBet := 0 }
  if l1.phase = "preflop" then
    let (c1, d1) := popOne l1.deck
    let (c2, d2) := popOne d1
    let (c3, d3) := popOne d2
    setCPIAfterDealer { l1 with community := l1.community ++ [c1, c2, c3], deck := d3, phase := "flop" }
  else if l1.phase = "flop" then
    let (c, d) := popOne l1.deck
    setCPIAfterDealer { l1 with community := l1.community ++ [c], deck := d, phase := "turn" }
  else if l1.phase = "turn" then
    let (c, d) := popOne l1.deck
    setCPIAfterDealer { l1 with community := l1.community ++ [c], deck := d, phase := "river" }
  else if l1.phase = "river" then { l1 with phase := "showdown" }
  else setCPIAfterDealer l1

/-- `moveToNextTurn(lobby)` (`server.js` lines 607-622). -/
def moveToNextTurn (l : Lobby) : Lobby :=
  if allOthersCalledOrFolded l then
    if l.phase = "river" then { l with phase := "showdown" }
    else advancePhase l
  else
    let nxt := match l.currentPlayerIndex with
      | some c => nextActiveIndex l ((c + 1).tmod l.players.length)
      | none => (-1 : Int)
    { l with currentPlayerIndex := some nxt }

end Srv

/-- The `bet` branch of `playerAction` (`server.js` lines 535-568, textually identical in
`part_000` lines 653-685), up to but not including `moveToNextTurn`: validate the amount,
cap it at the stack, move it from chips into bet/pot, on a raise update `currentBet` and
clear every other non-folded player's `hasActed`, finally set the actor's `hasActed`.
`raw` is `Math.floor(Number(amount) || 0)`.  Errors are the emitted `errorMessage`. -/
def betBranch (l : Lobby) (i : Nat) (raw : Int) : Except String Lobby :=
  if raw ≤ 0 then .error "Ange ett giltigt belopp att betta."
  else
    let me := l.players.getD i default
    let minOpen := l.settings.bigBlind
    let minCall := max 0 (l.currentBet - me.bet)
    if l.currentBet = 0 ∧ raw < minOpen then
      .error ("Minsta öppningsbet är " ++ toString minOpen ++ ".")
    else if l.currentBet > 0 ∧ raw < minCall then
      .error ("Du måste minst syna " ++ toString minCall ++ ".")
    else
      let betAmount := min raw me.chips
      let l1 := { l with
        players := updateAt l.players i
          (fun q => { q with chips := q.chips - betAmount, bet := q.bet + betAmount })
        pot := l.pot + betAmount }
      let l2 :=
        if me.bet + betAmount > l.currentBet then
          { l1 with
            currentBet := me.bet + betAmount
            players := mapWithIdx
              (fun j q => if !q.folded && j ≠ i then { q with hasActed := false } else q)
              l1.players }
        else l1
      .ok { l2 with players := updateAt l2.players i (fun q => { q with hasActed := true }) }

namespace Srv

/-- `playerAction` handler (`server.js` lines 485-571).  Returns the updated lobby and
the `errorMessage` payload emitted to the acting socket (and to it only), if any.  The
guards `!lobby || status !== "playing"` and `idx === -1` return silently (no message);
`findIdx = players.length` plays the role of `findIndex = -1`.  In the `fold` branch,
when only one player is left the reveal is emitted and the pot payout runs on a timer
(its body is the single-survivor case of `showdownResolve` below), so the synchronous
state stops at the fold flags. -/
def playerAction (l : Lobby) (sid : String) (type : String) (amount : Int) :
    Lobby × Option String :=
  if l.status ≠ "playing" then (l, none)
  else
    let i := l.players.findIdx (fun p => p.socketId == sid)
    if i = l.players.length then (l, none)
    else if l.currentPlayerIndex ≠ some (i : Int) then (l, some "Det är inte din tur.")
    else
      let me := l.players.getD i default
      if me.folded then (l, some "Du har redan foldat.")
      else if type = "fold" then
        let l1 := { l with
          players := updateAt l.players i (fun p => { p with folded := true, hasActed := true }) }
        if onlyOneLeft l1 then (l1, none)
        else (moveToNextTurn l1, none)
      else if type = "check" then
        if l.currentBet > 0 ∧ me.bet < l.currentBet then
          (l, some "Det finns ett bet att syna; du kan inte checka.")
        else
          (moveToNextTurn { l with
            players := updateAt l.players i (fun p => { p with hasActed := true }) }, none)
      else if type = "call" then
        let needed := max 0 (l.currentBet - me.bet)
        let pay := min needed me.chips
        (moveToNextTurn { l with
          players := updateAt l.players i
            (fun p => { p with chips := p.chips - pay, bet := p.bet + pay, hasActed := true })
          pot := l.pot + pay }, none)
      else if type = "bet" then
        match betBranch l i amount with
        | .error m => (l, some m)
        | .ok l1 => (moveToNextTurn l1, none)
      else (l, some "Ogiltig action.")

/-! ### Showdown payout (`server.js` lines 287-353): the deferred `setTimeout` bodies. -/

/-- Non-folded players (`lobby.players.filter(p => !p.folded)`). -/
def activePlayers (l : Lobby) : List Player := l.players.filter (fun p => !p.folded)

/-- `evaluateBestOfSeven([...p.hand, ...lobby.community])`. -/
def rankOf (l : Lobby) (p : Player) : List Int := evaluateBestOfSeven (p.hand ++ l.community)

/-- The ranks of the showdown `results` array, in seat order of the active players. -/
def showdownRanks (l : Lobby) : List (List Int) := (activePlayers l).map (rankOf l)

/-- `let best = results[0].rank; results.forEach(r => { if (compareRanks(r.rank, best) > 0)
best = r.rank; })` (`server.js` lines 323-324). -/
def bestRank (l : Lobby) : List Int :=
  (showdownRanks l).foldl (fun best r => if compareRanks r best > 0 then r else best)
    ((showdownRanks l).headD [])

/-- Membership test of the `winners` array: active and rank ties the best rank. -/
def isWinner (l : Lobby) (p : Player) : Bool :=
  !p.folded && compareRanks (rankOf l p) (bestRank l) == 0

/-- `winners = results.filter(r => compareRanks(r.rank, best) === 0).map(r => r.p)`. -/
def winners (l : Lobby) : List Player :=
  (activePlayers l).filter (fun p => compareRanks (rankOf l p) (bestRank l) == 0)

/-- `winners.forEach((w, idx) => { w.chips += share + (idx === 0 ? remainder : 0); })`:
walk the seats; every winner gains `share`, and the first winner in iteration order
additionally gains `rem`. -/
def payoutGo (share rem : Int) (isW : Player → Bool) : List Player → Bool → List Player
  | [], _ => []
  | p :: ps, first =>
    if isW p then
      { p with chips := p.chips + share + (if first then rem else 0) } :: payoutGo share rem isW ps false
    else p :: payoutGo share rem isW ps first

/-- Deferred payout of the ≥2-active showdown (`server.js` lines 338-352): single winner
takes the whole pot, otherwise `share = Math.floor(pot / winners.length)` each with the
remainder `pot - share * winners.length` to `winners[0]`; the pot is zeroed. -/
def showdownPayout (l : Lobby) : Lobby :=
  let ws := winners l
  if ws.length = 1 then
    { l with players := payoutGo l.pot 0 (isWinner l) l.players true, pot := 0 }
  else
    let share := Int.fdiv l.pot ws.length
    let remainder := l.pot - share * ws.length
    { l with players := payoutGo share remainder (isWinner l) l.players true, pot := 0 }

/-- The seat receiving the pot when nobody is active:
`lobby.players[lobby.dealerIndex] || lobby.players[0]` — an unassigned or out-of-range
dealer index falls back to seat 0. -/
def dealerSeat (l : Lobby) : Nat :=
  match l.dealerIndex with
  | some d => if 0 ≤ d ∧ d < (l.players.length : Int) then d.toNat else 0
  | none => 0

/-- Deferred payout of `showdown(lobby)` for every arity of the active set
(`server.js` lines 287-353, timer bodies only; `proceedAfterHand` then follows):
0 active → the dealer seat (`players[dealerIndex] || players[0]`) takes the pot;
1 active → that player takes the pot; otherwise `showdownPayout`.  An empty player
list would crash JS dereferencing `undefined`; modelled as no state change. -/
def showdownResolve (l : Lobby) : Lobby :=
  if l.players = [] ∧ (activePlayers l).length = 0 then l
  else if (activePlayers l).length = 0 then
    { l with players := updateAt l.players (dealerSeat l)
               (fun p => { p with chips := p.chips + l.pot })
             pot := 0 }
  else if (activePlayers l).length = 1 then
    let wi := l.players.findIdx (fun p => !p.folded)
    { l with players := updateAt l.players wi (fun p => { p with chips := p.chips + l.pot }),
             pot := 0 }
  else showdownPayout l

end Srv

/-- Re-normalisation of the four seat-index fields after a removal
(`server.js` lines 598-601 and `part_000` lines 731-735): each field is reduced modulo
the new seat count iff it was ever assigned (`typeof x === "number"`); JS `%` is the
truncated remainder `Int.tmod`. -/
def renormIndices (l : Lobby) : Lobby :=
  let n := (l.players.length : Int)
  { l with
    dealerIndex := l.dealerIndex.map (fun d => d.tmod n)
    smallBlindIndex := l.smallBlindIndex.map (fun d => d.tmod n)
    bigBlindIndex := l.bigBlindIndex.map (fun d => d.tmod n)
    currentPlayerIndex := l.currentPlayerIndex.map (fun d => d.tmod n) }

/-- `players.splice(i, 1)`. -/
def spliceAt (l : Lobby) (i : Nat) : Lobby := { l with players := l.players.eraseIdx i }

/-- Host transfer on removal: the first remaining player becomes host. -/
def hostTransfer (l : Lobby) (wasHost : Bool) : Lobby :=
  if wasHost then
    { l with hostId := (l.players.getD 0 default).socketId,
             players := updateAt l.players 0 (fun p => { p with isHost := true }) }
  else l

namespace Srv

/-- `removePlayerFromLobby(lobby, socketId)` (`server.js` lines 580-605): splice the seat,
delete the lobby when empty (`none`), transfer host, re-normalise indices.  NOTE: this
variant never touches the pot or any chips. -/
def removePlayerFromLobby (l : Lobby) (sid : String) : Option Lobby :=
  let i := l.players.findIdx (fun p => p.socketId == sid)
  if i = l.players.length then some l
  else
    let wasHost := (l.players.getD i default).socketId == l.hostId
    let l1 := spliceAt l i
    if l1.players.length = 0 then none
    else some (renormIndices (hostTransfer l1 wasHost))

end Srv

/-! ## `part_000` game flow (only where it differs from `server.js`) -/

namespace P0

/-- `bettingRoundComplete(lobby)` (`part_000` lines 274-281): trivially complete with at
most one active player; otherwise every active player is all-in or has matched the
current bet AND has acted since the last raise. -/
def bettingRoundComplete (l : Lobby) : Bool :=
  let active := l.players.filter (fun p => !p.folded)
  if active.length ≤ 1 then true
  else active.all (fun p => if p.chips == 0 then true else p.bet == l.currentBet && p.hasActed)

/-- Loop of `nextActiveIndex` (`part_000` lines 256-265): first non-folded seat. -/
def nextActiveAux (ps : List Player) : Nat → Nat → Int
  | 0, _ => -1
  | fuel + 1, i =>
    match ps.get? i with
    | some p => if !p.folded then (i : Int) else nextActiveAux ps fuel ((i + 1) % ps.length)
    | none => nextActiveAux ps fuel ((i + 1) % ps.length)

def nextActiveIndex (l : Lobby) (start : Int) : Int :=
  if l.players.length = 0 then -1
  else nextActiveAux l.players l.players.length ((start.tmod l.players.length).toNat)

/-- `applyBlind` (`part_000` lines 243-251): as in `server.js` but with the explicit
`if (!p) return;` null guard. -/
def applyBlind (l : Lobby) (idx : Nat) (amount : Int) : Lobby :=
  if h : idx < l.players.length then
    let p := l.players.get ⟨idx, h⟩
    let pay := max 0 (min p.chips amount)
    { l with
      players := updateAt l.players idx (fun q => { q with chips := q.chips - pay, bet := q.bet + pay })
      pot := l.pot + pay }
  else l

/-- Dealing loop of `initHand`: each player in seat order is reset and draws
`[deck.pop(), deck.pop()]`. -/
def dealAll : List Player → List Card → List Player × List Card
  | [], d => ([], d)
  | p :: ps, d =>
    let (c1, d1) := popOne d
    let (c2, d2) := popOne d1
    let (ps', d') := dealAll ps d2
    ({ p with folded := false, bet := 0, hasActed := false, hand := [c1, c2] } :: ps', d')

/-- `initHand(lobby)` (`part_000` lines 206-241; `server.js` lines 190-221 is textually
identical up to comments): fresh shuffled deck (`freshDeck` stands for
`shuffle(createDeck())`), reset the hand fields, deal, rotate the dealer
(first hand: seat 0), post the blinds, seat the first actor after the big blind. -/
def initHand (l : Lobby) (freshDeck : List Card) : Lobby :=
  let l1 := { l with deck := freshDeck, community := [], phase := "preflop", pot := 0,
                     currentBet := 0 }
  let (ps, d) := dealAll l1.players l1.deck
  let l2 := { l1 with players := ps, deck := d }
  let n := l2.players.length
  let dealer : Int := match l2.dealerIndex with
    | none => 0
    | some d0 => (d0 + 1).tmod n
  let sb := (dealer + 1).tmod n
  let bb := (dealer + 2).tmod n
  let l3 := { l2 with dealerIndex := some dealer, smallBlindIndex := some sb,
                      bigBlindIndex := some bb }
  let l4 := applyBlind l3 sb.toNat l3.settings.smallBlind
  let l5 := applyBlind l4 bb.toNat l4.settings.bigBlind
  let l6 := { l5 with currentBet := max l5.currentBet l5.settings.bigBlind }
  { l6 with currentPlayerIndex := some (nextActiveIndex l6 ((bb + 1).tmod n)) }

/-- `proceedAfterHand(lobby)` (`part_000` lines 440-457; `server.js` lines 370-391 is
identical): bump `roundNumber`, end the game when the round limit is reached or exactly
one player still holds chips, else start the next hand. -/
def proceedAfterHand (l : Lobby) (freshDeck : List Card) : Lobby :=
  let l1 := { l with roundNumber := l.roundNumber + 1 }
  if (l1.settings.rounds > 0 ∧ (l1.roundNumber : Int) ≥ l1.settings.rounds)
      ∨ (l1.players.filter (fun p => p.chips > 0)).length = 1 then
    { l1 with status := "finished" }
  else initHand l1 freshDeck

/-- Seat receiving the abandoned pot on removal:
`lobby.players.find(p => !p.folded) || lobby.players[0]`. -/
def winnerIdx (l : Lobby) : Nat :=
  let j := l.players.findIdx (fun p => !p.folded)
  if j < l.players.length then j else 0

/-- `winner.chips += lobby.pot; lobby.pot = 0;` (`part_000` lines 723-726). -/
def awardPotToRemaining (l : Lobby) : Lobby :=
  { l with players := updateAt l.players (winnerIdx l) (fun p => { p with chips := p.chips + l.pot })
           pot := 0 }

/-- `removePlayerFromLobby(lobby, socketId)` (`part_000` lines 702-739): splice, delete
when empty, transfer host, and — unlike `server.js` — when a hand is in progress and at
most one non-folded player remains, award the pot and run `proceedAfterHand`; finally
re-normalise the seat indices. -/
def removePlayerFromLobby (l : Lobby) (sid : String) (freshDeck : List Card) : Option Lobby :=
  let i := l.players.findIdx (fun p => p.socketId == sid)
  if i = l.players.length then some l
  else
    let wasHost := (l.players.getD i default).socketId == l.hostId
    let l1 := spliceAt l i
    if l1.players.length = 0 then none
    else
      let l2 := hostTransfer l1 wasHost
      let l3 :=
        if l2.status = "playing" ∧ (l2.players.filter (fun p => !p.folded)).length ≤ 1 then
          proceedAfterHand (awardPotToRemaining l2) freshDeck
        else l2
      some (renormIndices l3)

end P0

/-! ## Lobby creation and joining (`server.js` lines 412-459, 641-645) -/

/-- A raw settings field as received from the client: `none` = the key was absent
(`undefined`), `some none` = present but `parseInt` yields `NaN`, `some (some v)` =
`parseInt` yields the integer `v`. -/
abbrev JSInput := Option (Option Int)

/-- `clampInt(v, min, max)` (`server.js` lines 641-645): `parseInt`, `NaN → min`, then
clamp into `[min, max]`.  The argument is the parse outcome (`none` = `NaN`). -/
def clampInt (v : Option Int) (lo hi : Int) : Int :=
  let v0 := match v with
    | none => lo
    | some n => n
  max lo (min hi v0)

/-- `x ?? dflt` followed by `parseInt`: an absent field becomes the (numeric) default. -/
def resolveDefault (inp : JSInput) (dflt : Int) : Option Int :=
  match inp with
  | none => some dflt
  | some p => p

/-- `parsedRounds` (`server.js` lines 416-421): `parseInt(settings.rounds)` with no `??`
default — `NaN → 5`, else clamp into `[0, 100000]`. -/
def parsedRounds (inp : JSInput) : Int :=
  match inp with
  | none => 5          -- absent: parseInt(undefined) is NaN
  | some none => 5     -- present but non-numeric
  | some (some v) => max 0 (min 100000 v)

/-- The `settings` object built by the `createLobby` handler (`server.js` lines 427-432). -/
def lobbySettings (sc r sb bb : JSInput) : Settings :=
  { startChips := clampInt (resolveDefault sc 1000) 100 1000000
    rounds := parsedRounds r
    smallBlind := clampInt (resolveDefault sb 5) 1 100000
    bigBlind := clampInt (resolveDefault bb 10) 2 200000 }

/-- `String.prototype.toUpperCase` on the ASCII range (lobby ids and what users type for
them are ASCII). -/
def jsToUpperChar (c : Char) : Char :=
  if 'a' ≤ c ∧ c ≤ 'z' then Char.ofNat (c.toNat - 32) else c

def toUpperStr (s : List Char) : List Char := s.map jsToUpperChar

/-- `joinLobby` handler (`server.js` lines 448-459): look up
`lobbies.get((lobbyId || "").toUpperCase())`, reject unknown/started/full lobbies, else
append a fresh player with the configured starting stack.  The in-memory `Map` of
lobbies is modelled as an association list keyed by lobby id. -/
def joinLobby (lobbies : List (List Char × Lobby)) (lobbyId : List Char) (name sid : String) :
    Except String (Lobby × Player) :=
  match List.lookup (toUpperStr lobbyId) lobbies with
  | none => .error "Lobby hittades inte."
  | some lobby =>
    if lobby.status ≠ "lobby" then .error "Spelet har redan startat."
    else if 4 ≤ lobby.players.length then .error "Lobbyn är full (max 4)."
    else
      let player := makePlayer sid (if name = "" then "Spelare" else name) false
        lobby.settings.startChips
      .ok ({ lobby with players := lobby.players ++ [player] }, player)

/-! ## Specification-side definition for the betting-round completion claim -/

/-- The spec's betting-round completion test, verbatim from its words: true exactly when
every non-folded player either has zero chips remaining (all-in) or has `bet ==
currentBet` and `hasActed == true`; a single remaining non-folded player trivially
satisfies completion. -/
def completionSpec (l : Lobby) : Prop :=
  (l.players.filter (fun p => !p.folded)).length ≤ 1
  ∨ ∀ p ∈ l.players, p.folded = false →
      p.chips = 0 ∨ (p.bet = l.currentBet ∧ p.hasActed = true)

instance (l : Lobby) : Decidable (completionSpec l) := by
  unfold completionSpec
  infer_instance

instance : DecidableEq (Except String Lobby) := fun x y =>
  match x, y with
  | .error a, .error b =>
    if h : a = b then isTrue (by rw [h]) else isFalse (by intro hc; injection hc; contradiction)
  | .ok a, .ok b =>
    if h : a = b then isTrue (by rw [h]) else isFalse (by intro hc; injection hc; contradiction)
  | .error _, .ok _ => isFalse (by intro hc; injection hc)
  | .ok _, .error _ => isFalse (by intro hc; injection hc)

/-! ## Concrete fixtures used by witnesses and counterexamples -/

def exSettings : Settings :=
  { startChips := 1000, rounds := 5, smallBlind := 5, bigBlind := 10 }

def mkTestPlayer (sid : String) (chips bet : Int) (folded acted : Bool) : Player :=
  { id := sid, name := sid, socketId := sid, isHost := false, chips := chips,
    folded := folded, bet := bet, hasActed := acted, hand := [] }

/-- Preflop: both players have matched `currentBet = 10` but neither has acted. -/
def c1Lobby : Lobby :=
  { id := "AAAAA".toList, hostId := "a", status := "playing", settings := exSettings,
    players := [mkTestPlayer "a" 990 10 false false, mkTestPlayer "b" 990 10 false false],
    roundNumber := 0, dealerIndex := some 0, smallBlindIndex := some 1,
    bigBlindIndex := some 0, currentPlayerIndex := some 1,
    deck := [], community := [], pot := 20, currentBet := 10, phase := "preflop" }

/-- Flop with no bet yet: seat 0 is about to open for 50, a raise over `currentBet = 0`. -/
def c1RaiseLobby : Lobby :=
  { id := "AAAAB".toList, hostId := "a", status := "playing", settings := exSettings,
    players := [mkTestPlayer "a" 990 0 false false, mkTestPlayer "b" 990 0 false false],
    roundNumber := 0, dealerIndex := some 0, smallBlindIndex := some 1,
    bigBlindIndex := some 0, currentPlayerIndex := some 0,
    deck := [], community := [], pot := 20, currentBet := 0, phase := "flop" }

/-- The lobby produced by seat 0 opening for 50 in `c1RaiseLobby`. -/
def c1RaiseResult : Lobby :=
  match betBranch c1RaiseLobby 0 50 with
  | .ok l => l
  | .error _ => c1RaiseLobby

/-- Two-player showdown on the river: seat 0 holds a pair of aces, seat 1 ace-king high. -/
def c3Lobby : Lobby :=
  { id := "AAAAC".toList, hostId := "a", status := "playing", settings := exSettings,
    players := [
      { mkTestPlayer "a" 900 0 false true with
          hand := [{ r := "A", s := "♠" }, { r := "A", s := "♥" }] },
      { mkTestPlayer "b" 900 0 false true with
          hand := [{ r := "A", s := "♦" }, { r := "K", s := "♥" }] }],
    roundNumber := 0, dealerIndex := some 0, smallBlindIndex := some 1,
    bigBlindIndex := some 0, currentPlayerIndex := some 1,
    deck := [],
    community := [{ r := "2", s := "♣" }, { r := "7", s := "♦" }, { r := "9", s := "♠" },
      { r := "J", s := "♣" }, { r := "4", s := "♥" }],
    pot := 200, currentBet := 0, phase := "showdown" }

/-- A wheel: A-2-3-4-5 of mixed suits. -/
def wheelHand : List Card :=
  [{ r := "A", s := "♠" }, { r := "2", s := "♥" }, { r := "3", s := "♦" },
   { r := "4", s := "♠" }, { r := "5", s := "♥" }]

/-- A six-high straight of mixed suits. -/
def sixHighHand : List Card :=
  [{ r := "2", s := "♠" }, { r := "3", s := "♥" }, { r := "4", s := "♦" },
   { r := "5", s := "♠" }, { r := "6", s := "♥" }]

/-- Seat 1 ("b") is to act; seat 0 tries to act out of turn. -/
def c7Lobby : Lobby :=
  { id := "AAAAD".toList, hostId := "a", status := "playing", settings := exSettings,
    players := [mkTestPlayer "a" 990 10 false false, mkTestPlayer "b" 995 5 false false],
    roundNumber := 0, dealerIndex := some 0, smallBlindIndex := some 1,
    bigBlindIndex := some 0, currentPlayerIndex := some 1,
    deck := [], community := [], pot := 15, currentBet := 10, phase := "preflop" }

/-- Mid-hand lobby: removing "b" leaves one non-folded player and a 30-chip pot. -/
def c8Lobby : Lobby :=
  { id := "AAAAE".toList, hostId := "a", status := "playing",
    settings := { startChips := 1000, rounds := 1, smallBlind := 5, bigBlind := 10 },
    players := [mkTestPlayer "a" 985 15 false false, mkTestPlayer "b" 985 15 false false],
    roundNumber := 0, dealerIndex := some 0, smallBlindIndex := some 1,
    bigBlindIndex := some 0, currentPlayerIndex := some 0,
    deck := [], community := [], pot := 30, currentBet := 15, phase := "flop" }

/-- Joinable lobby with an uppercase generated-style id. -/
def c10Lobby : Lobby :=
  { id := "AB2CD".toList, hostId := "a", status := "lobby", settings := exSettings,
    players := [mkTestPlayer "a" 1000 0 false false],
    roundNumber := 0, dealerIndex := none, smallBlindIndex := none,
    bigBlindIndex := none, currentPlayerIndex := none,
    deck := [], community := [], pot := 0, currentBet := 0, phase := "" }

/-! ## Order-theoretic facts about the first-difference comparison -/

theorem fdz_nil_left (ys : List Int) : fdz [] ys = 0 := by cases ys <;> rfl

theorem fdz_nil_right (xs : List Int) : fdz xs [] = 0 := by cases xs <;> rfl

theorem fdz_cons (x y : Int) (xs ys : List Int) :
    fdz (x :: xs) (y :: ys) = if x ≠ y then x - y else fdz xs ys := rfl

theorem fdz_self (xs : List Int) : fdz xs xs = 0 := by
  induction xs with
  | nil => rfl
  | cons x xs ih => simp [fdz_cons, ih]

theorem fdz_swap (xs ys : List Int) : fdz xs ys = - fdz ys xs := by
  induction xs generalizing ys with
  | nil => cases ys <;> simp [fdz_nil_left, fdz_nil_right]
  | cons x xs ih =>
    cases ys with
    | nil => simp [fdz_nil_left, fdz_nil_right]
    | cons y ys =>
      by_cases h : x = y
      · subst h; simp [fdz_cons, ih]
      · rw [fdz_cons, if_pos h, fdz_cons, if_pos (Ne.symm h)]
        omega

theorem fdz_eq_zero_iff {xs ys : List Int} (h : xs.length = ys.length) :
    fdz xs ys = 0 ↔ xs = ys := by
  induction xs generalizing ys with
  | nil => cases ys with
    | nil => simp [fdz]
    | cons y ys => simp at h
  | cons x xs ih =>
    cases ys with
    | nil => simp at h
    | cons y ys =>
      simp only [List.length_cons, Nat.succ.injEq] at h
      by_cases hxy : x = y
      · subst hxy; simp [fdz_cons, ih h]
      · simp [fdz_cons, hxy]
        omega

theorem fdz_append {xs ys : List Int} (u v : List Int) (h : xs.length = ys.length) :
    fdz (xs ++ u) (ys ++ v) = if xs = ys then fdz u v else fdz xs ys := by
  induction xs generalizing ys with
  | nil =>
    cases ys with
    | nil => simp
    | cons y ys => simp at h
  | cons x xs ih =>
    cases ys with
    | nil => simp at h
    | cons y ys =>
      simp only [List.length_cons, Nat.succ.injEq] at h
      by_cases hxy : x = y
      · subst hxy
        rw [List.cons_append, List.cons_append, fdz_cons, if_neg (not_not_intro rfl), ih h,
            fdz_cons, if_neg (not_not_intro rfl)]
        by_cases hxs : xs = ys
        · simp [hxs]
        · simp [hxs]
      · rw [List.cons_append, List.cons_append, fdz_cons, if_pos hxy,
            if_neg (by simp [hxy]), fdz_cons, if_pos hxy]

theorem fdz_trans_pos {xs ys zs : List Int} (h1 : xs.length = ys.length)
    (h2 : ys.length = zs.length) (p1 : 0 < fdz xs ys) (p2 : 0 < fdz ys zs) :
    0 < fdz xs zs := by
  induction xs generalizing ys zs with
  | nil =>
    cases ys with
    | nil => simp [fdz] at p1
    | cons y ys => simp at h1
  | cons x xs ih =>
    cases ys with
    | nil => simp at h1
    | cons y ys =>
      cases zs with
      | nil => simp at h2
      | cons z zs =>
        simp only [List.length_cons, Nat.succ.injEq] at h1 h2
        by_cases hxy : x = y
        · subst hxy
          rw [fdz_cons, if_neg (not_not_intro rfl)] at p1
          by_cases hyz : x = z
          · subst hyz
            rw [fdz_cons, if_neg (not_not_intro rfl)] at p2
            rw [fdz_cons, if_neg (not_not_intro rfl)]
            exact ih h1 h2 p1 p2
          · rw [fdz_cons, if_pos hyz] at p2
            rw [fdz_cons, if_pos hyz]
            exact p2
        · rw [fdz_cons, if_pos hxy] at p1
          by_cases hyz : y = z
          · subst hyz
            rw [fdz_cons, if_pos hxy]
            exact p1
          · rw [fdz_cons, if_pos hyz] at p2
            have hxz : x ≠ z := by omega
            rw [fdz_cons, if_pos hxz]
            omega

theorem fdz_neg_iff_lex {xs ys : List Int} (h : xs.length = ys.length) :
    fdz xs ys < 0 ↔ List.Lex (· < ·) xs ys := by
  induction xs generalizing ys with
  | nil =>
    cases ys with
    | nil =>
      simp only [fdz]
      constructor
      · omega
      · intro hl; cases hl
    | cons y ys => simp at h
  | cons x xs ih =>
    cases ys with
    | nil => simp at h
    | cons y ys =>
      simp only [List.length_cons, Nat.succ.injEq] at h
      by_cases hxy : x = y
      · subst hxy
        simp only [fdz_cons, ne_eq, not_true_eq_false, if_false, ite_not, if_pos rfl]
        rw [ih h]
        constructor
        · intro hl; exact List.Lex.cons hl
        · intro hl
          cases hl with
          | cons h' => exact h'
          | rel h' => exact absurd h' (lt_irrefl x)
      · simp only [fdz_cons, ne_eq, hxy, not_false_eq_true, if_true]
        constructor
        · intro hd; exact List.Lex.rel (by omega)
        · intro hl
          cases hl with
          | cons _ => exact absurd rfl hxy
          | rel h' => omega

/-! ### Padding -/

theorem padTo_length (l : List Int) (n : Nat) : (padTo l n).length = n := by
  simp [padTo]

theorem padTo_eq_append {l : List Int} {n m : Nat} (hl : l.length ≤ n) (hnm : n ≤ m) :
    padTo l m = padTo l n ++ List.replicate (m - n) (-1) := by
  have hm : m = n + (m - n) := by omega
  rw [padTo, hm, List.range_add, List.map_append, ← padTo]
  congr 1
  rw [List.eq_replicate_iff]
  constructor
  · simp
  · intro b hb
    simp only [List.mem_map, List.mem_range] at hb
    obtain ⟨i, _, hi⟩ := hb
    rw [List.getD_eq_default] at hi
    · omega
    · omega

theorem compareRanks_eq_fdz (a b : List Int) (n : Nat) (hn : max a.length b.length ≤ n) :
    compareRanks a b = fdz (padTo a n) (padTo b n) := by
  have ha : a.length ≤ max a.length b.length := le_max_left _ _
  have hb : b.length ≤ max a.length b.length := le_max_right _ _
  rw [compareRanks, padTo_eq_append ha hn, padTo_eq_append hb hn,
      fdz_append _ _ (by rw [padTo_length, padTo_length])]
  split
  · next h => rw [fdz_self, h, fdz_self]
  · rfl

theorem compareRanks_self (a : List Int) : compareRanks a a = 0 := by
  rw [compareRanks, fdz_self]

theorem compareRanks_swap (a b : List Int) : compareRanks a b = - compareRanks b a := by
  rw [compareRanks, compareRanks, fdz_swap, Nat.max_comm]

theorem compareRanks_trans_pos {a b c : List Int} (h1 : 0 < compareRanks a b)
    (h2 : 0 < compareRanks b c) : 0 < compareRanks a c := by
  rw [compareRanks_eq_fdz a b (max a.length (max b.length c.length)) (by omega)] at h1
  rw [compareRanks_eq_fdz b c (max a.length (max b.length c.length)) (by omega)] at h2
  rw [compareRanks_eq_fdz a c (max a.length (max b.length c.length)) (by omega)]
  exact fdz_trans_pos (by rw [padTo_length, padTo_length]) (by rw [padTo_length, padTo_length])
    h1 h2

theorem compareRanks_congr_right {b c : List Int} (a : List Int)
    (h : compareRanks b c = 0) : compareRanks a b = compareRanks a c := by
  rw [compareRanks_eq_fdz b c (max a.length (max b.length c.length)) (by omega)] at h
  rw [fdz_eq_zero_iff (by rw [padTo_length, padTo_length])] at h
  rw [compareRanks_eq_fdz a b (max a.length (max b.length c.length)) (by omega),
      compareRanks_eq_fdz a c (max a.length (max b.length c.length)) (by omega), h]

theorem compareRanks_le_trans {a b c : List Int} (h1 : compareRanks a b ≤ 0)
    (h2 : compareRanks b c ≤ 0) : compareRanks a c ≤ 0 := by
  by_contra hpos
  push_neg at hpos
  rcases lt_or_eq_of_le h2 with h2' | h2'
  · have hswap := compareRanks_swap b c
    have hcb : 0 < compareRanks c b := by omega
    have h3 := compareRanks_trans_pos hpos hcb
    omega
  · have := compareRanks_congr_right a h2'
    omega

/-! ## The best-rank fold computes a maximum -/

theorem foldBest_mem (init : List Int) (l : List (List Int)) :
    l.foldl (fun best r => if compareRanks r best > 0 then r else best) init ∈ init :: l := by
  induction l generalizing init with
  | nil => simp
  | cons r rs ih =>
    rw [List.foldl_cons]
    rcases List.mem_cons.mp (ih (if compareRanks r init > 0 then r else init)) with h | h
    · rw [h]
      by_cases hc : compareRanks r init > 0
      · rw [if_pos hc]; exact List.mem_cons_of_mem _ (List.mem_cons_self _ _)
      · rw [if_neg hc]; exact List.mem_cons_self _ _
    · exact List.mem_cons_of_mem _ (List.mem_cons_of_mem _ h)

theorem foldBest_le (init : List Int) (l : List (List Int)) :
    compareRanks init (l.foldl (fun best r => if compareRanks r best > 0 then r else best) init) ≤ 0
    ∧ ∀ r ∈ l,
        compareRanks r (l.foldl (fun best r => if compareRanks r best > 0 then r else best) init)
          ≤ 0 := by
  induction l generalizing init with
  | nil =>
    refine ⟨?_, ?_⟩
    · rw [List.foldl_nil, compareRanks_self]
    · intro r hr; simp at hr
  | cons r rs ih =>
    rw [List.foldl_cons]
    obtain ⟨h1, h2⟩ := ih (if compareRanks r init > 0 then r else init)
    have hinit : compareRanks init (if compareRanks r init > 0 then r else init) ≤ 0 := by
      by_cases hc : compareRanks r init > 0
      · rw [if_pos hc]
        have := compareRanks_swap init r
        have := compareRanks_swap r init
        omega
      · rw [if_neg hc, compareRanks_self]
    have hr : compareRanks r (if compareRanks r init > 0 then r else init) ≤ 0 := by
      by_cases hc : compareRanks r init > 0
      · rw [if_pos hc, compareRanks_self]
      · rw [if_neg hc]; omega
    refine ⟨compareRanks_le_trans hinit h1, ?_⟩
    intro x hx
    rcases List.mem_cons.mp hx with rfl | hx
    · exact compareRanks_le_trans hr h1
    · exact h2 x hx

/-! ## `sort((a, b) => b - a)` is the descending reordering -/

theorem insertDesc_perm (x : Int) (l : List Int) : (insertDesc x l).Perm (x :: l) := by
  induction l with
  | nil => exact List.Perm.refl _
  | cons y ys ih =>
    rw [insertDesc]
    by_cases h : x ≥ y
    · rw [if_pos h]
    · rw [if_neg h]
      exact List.Perm.trans (List.Perm.cons y ih) (List.Perm.swap x y ys)

theorem sortDesc_perm (l : List Int) : (sortDesc l).Perm l := by
  induction l with
  | nil => exact List.Perm.refl _
  | cons x xs ih =>
    have : sortDesc (x :: xs) = insertDesc x (sortDesc xs) := rfl
    rw [this]
    exact List.Perm.trans (insertDesc_perm x (sortDesc xs)) (List.Perm.cons x ih)

theorem insertDesc_sorted (x : Int) {l : List Int} (h : l.Sorted (· ≥ ·)) :
    (insertDesc x l).Sorted (· ≥ ·) := by
  induction l with
  | nil => simp [insertDesc]
  | cons y ys ih =>
    rw [List.sorted_cons] at h
    obtain ⟨hy, hys⟩ := h
    rw [insertDesc]
    by_cases hxy : x ≥ y
    · rw [if_pos hxy, List.sorted_cons]
      refine ⟨?_, ?_⟩
      · intro b hb
        rcases List.mem_cons.mp hb with rfl | hb
        · exact hxy
        · exact le_trans (hy b hb) hxy
      · rw [List.sorted_cons]; exact ⟨hy, hys⟩
    · rw [if_neg hxy, List.sorted_cons]
      refine ⟨?_, ih hys⟩
      intro b hb
      rcases List.mem_cons.mp ((insertDesc_perm x ys).mem_iff.mp hb) with rfl | hb
      · omega
      · exact hy b hb

theorem sortDesc_sorted (l : List Int) : (sortDesc l).Sorted (· ≥ ·) := by
  induction l with
  | nil => simp [sortDesc]
  | cons x xs ih => exact insertDesc_sorted x ih

/-- A list permuting to a descending-sorted target sorts to exactly that target. -/
theorem sortDesc_eq_of_perm {l target : List Int} (h : l.Perm target)
    (ht : target.Sorted (· ≥ ·)) : sortDesc l = target :=
  List.eq_of_perm_of_sorted (List.Perm.trans (sortDesc_perm l) h) (sortDesc_sorted l) ht

/-! ## Bookkeeping lemmas for seat updates and chip sums -/

theorem updateAt_length (ps : List Player) (i : Nat) (f : Player → Player) :
    (updateAt ps i f).length = ps.length := by
  induction ps generalizing i with
  | nil => rfl
  | cons p ps ih => cases i with
    | zero => rfl
    | succ n => simp [updateAt, ih]

theorem updateAt_oob (ps : List Player) (i : Nat) (f : Player → Player)
    (h : ps.length ≤ i) : updateAt ps i f = ps := by
  induction ps generalizing i with
  | nil => rfl
  | cons p ps ih =>
    cases i with
    | zero => simp at h
    | succ n =>
      rw [updateAt, ih]
      simp at h
      omega

theorem updateAt_getD_same (ps : List Player) (i : Nat) (f : Player → Player)
    (h : i < ps.length) : (updateAt ps i f).getD i default = f (ps.getD i default) := by
  induction ps generalizing i with
  | nil => simp at h
  | cons p ps ih =>
    cases i with
    | zero => rfl
    | succ n =>
      simp only [updateAt, List.getD_cons_succ]
      exact ih n (by simpa using h)

theorem updateAt_getD_other (ps : List Player) (i j : Nat) (f : Player → Player)
    (hij : j ≠ i) : (updateAt ps i f).getD j default = ps.getD j default := by
  induction ps generalizing i j with
  | nil => cases i <;> rfl
  | cons p ps ih =>
    cases i with
    | zero =>
      cases j with
      | zero => exact absurd rfl hij
      | succ m => rfl
    | succ n =>
      cases j with
      | zero => rfl
      | succ m =>
        simp only [updateAt, List.getD_cons_succ]
        exact ih n m (by omega)

theorem map_chips_updateAt (ps : List Player) (i : Nat) (f : Player → Player)
    (hf : ∀ p, (f p).chips = p.chips) :
    (updateAt ps i f).map Player.chips = ps.map Player.chips := by
  induction ps generalizing i with
  | nil => rfl
  | cons p ps ih => cases i with
    | zero => simp [updateAt, hf]
    | succ n => simp [updateAt, ih]

theorem sum_chips_updateAt (ps : List Player) (i : Nat) (f : Player → Player)
    (h : i < ps.length) :
    ((updateAt ps i f).map Player.chips).sum
      = (ps.map Player.chips).sum + ((f (ps.getD i default)).chips - (ps.getD i default).chips) := by
  induction ps generalizing i with
  | nil => simp at h
  | cons p ps ih =>
    cases i with
    | zero =>
      simp only [updateAt, List.map_cons, List.sum_cons, List.getD_cons_zero]
      ring
    | succ n =>
      simp only [updateAt, List.map_cons, List.sum_cons, List.getD_cons_succ]
      rw [ih n (by simpa using h)]
      ring

theorem mapWithIdx_go_length (f : Nat → Player → Player) (k : Nat) (ps : List Player) :
    (mapWithIdx.go f k ps).length = ps.length := by
  induction ps generalizing k with
  | nil => rfl
  | cons p ps ih => simp [mapWithIdx.go, ih]

theorem mapWithIdx_length (f : Nat → Player → Player) (ps : List Player) :
    (mapWithIdx f ps).length = ps.length := mapWithIdx_go_length f 0 ps

theorem mapWithIdx_go_getD (f : Nat → Player → Player) (k : Nat) (ps : List Player)
    (j : Nat) (hj : j < ps.length) :
    (mapWithIdx.go f k ps).getD j default = f (k + j) (ps.getD j default) := by
  induction ps generalizing k j with
  | nil => simp at hj
  | cons p ps ih =>
    cases j with
    | zero => rfl
    | succ m =>
      simp only [mapWithIdx.go, List.getD_cons_succ]
      rw [ih (k + 1) m (by simpa using hj)]
      congr 1
      omega

theorem mapWithIdx_getD (f : Nat → Player → Player) (ps : List Player) (j : Nat)
    (hj : j < ps.length) : (mapWithIdx f ps).getD j default = f j (ps.getD j default) := by
  rw [mapWithIdx, mapWithIdx_go_getD f 0 ps j hj, Nat.zero_add]

theorem map_chips_mapWithIdx (f : Nat → Player → Player)
    (hf : ∀ i p, (f i p).chips = p.chips) (ps : List Player) :
    (mapWithIdx f ps).map Player.chips = ps.map Player.chips := by
  rw [mapWithIdx]
  generalize 0 = k
  induction ps generalizing k with
  | nil => rfl
  | cons p ps ih => simp [mapWithIdx.go, hf, ih]

theorem payoutGo_sum (share rem : Int) (isW : Player → Bool) (ps : List Player) (first : Bool) :
    ((Srv.payoutGo share rem isW ps first).map Player.chips).sum
      = (ps.map Player.chips).sum + share * (ps.countP isW : Int)
        + (if first && ps.any isW then rem else 0) := by
  induction ps generalizing first with
  | nil => simp [Srv.payoutGo]
  | cons p ps ih =>
    rw [Srv.payoutGo]
    by_cases hw : isW p = true
    · rw [if_pos hw]
      simp only [List.map_cons, List.sum_cons, ih false, List.countP_cons, List.any_cons, hw,
        Bool.true_or, Bool.and_true, Bool.false_and]
      simp only [Bool.false_eq_true, if_false]
      push_cast
      cases first with
      | true => simp only [if_pos rfl]; ring
      | false => simp only [Bool.false_eq_true, if_false]; ring
    · simp only [Bool.not_eq_true] at hw
      rw [if_neg (by rw [hw]; exact Bool.false_ne_true)]
      simp only [List.map_cons, List.sum_cons, ih first, List.countP_cons, List.any_cons, hw,
        Bool.false_or, Bool.false_eq_true, if_false]
      push_cast
      ring


/-! ## Chip conservation of the individual operations -/

theorem chipSum_def (l : Lobby) : chipSum l = (l.players.map Player.chips).sum + l.pot := rfl

theorem map_chips_map (f : Player → Player) (hf : ∀ p, (f p).chips = p.chips)
    (ps : List Player) : (ps.map f).map Player.chips = ps.map Player.chips := by
  induction ps with
  | nil => rfl
  | cons p ps ih => simp [hf, ih]

theorem chipSum_setCPI (l : Lobby) : chipSum (Srv.setCPIAfterDealer l) = chipSum l := rfl

theorem chipSum_advancePhase (l : Lobby) : chipSum (Srv.advancePhase l) = chipSum l := by
  have key : (l.players.map (fun p => { p with bet := 0, hasActed := false })).map Player.chips
      = l.players.map Player.chips :=
    map_chips_map (fun p => { p with bet := 0, hasActed := false }) (fun p => rfl) l.players
  rw [Srv.advancePhase]
  split_ifs <;> simp only [Srv.setCPIAfterDealer, chipSum_def, key]

theorem chipSum_moveToNextTurn (l : Lobby) : chipSum (Srv.moveToNextTurn l) = chipSum l := by
  rw [Srv.moveToNextTurn]
  split_ifs
  · rfl
  · exact chipSum_advancePhase l
  · rfl

/-- The chip/bet/pot transfer common to the `call` and `bet` branches conserves
the total: `pay` leaves the seat's chips and enters the pot. -/
theorem chipSum_payInto (l : Lobby) (i : Nat) (pay : Int) (f : Player → Player)
    (hf : ∀ p, (f p).chips = p.chips - pay)
    (hpay : l.players.length ≤ i → pay = 0) :
    chipSum { l with players := updateAt l.players i f, pot := l.pot + pay } = chipSum l := by
  simp only [chipSum_def]
  by_cases h : i < l.players.length
  · rw [sum_chips_updateAt _ _ _ h, hf]
    ring
  · push_neg at h
    rw [updateAt_oob _ _ _ h, hpay h]
    ring

theorem chipSum_betBranch {l : Lobby} {i : Nat} {raw : Int} {l' : Lobby}
    (h : betBranch l i raw = .ok l') : chipSum l' = chipSum l := by
  rw [betBranch] at h
  by_cases hr : raw ≤ 0
  · rw [if_pos hr] at h
    simp at h
  · rw [if_neg hr] at h
    dsimp only at h
    have hoob : l.players.length ≤ i → raw ⊓ (l.players.getD i default).chips = 0 := by
      intro hge
      rw [List.getD_eq_default _ _ hge]
      have hd : (default : Player).chips = 0 := rfl
      omega
    by_cases h2 : l.currentBet = 0 ∧ raw < l.settings.bigBlind
    · rw [if_pos h2] at h
      simp at h
    · rw [if_neg h2] at h
      by_cases h3 : l.currentBet > 0 ∧ raw < 0 ⊔ (l.currentBet - (l.players.getD i default).bet)
      · rw [if_pos h3] at h
        simp at h
      · rw [if_neg h3] at h
        have hpay := chipSum_payInto l i (raw ⊓ (l.players.getD i default).chips)
          (fun q => { q with chips := q.chips - raw ⊓ (l.players.getD i default).chips,
                             bet := q.bet + raw ⊓ (l.players.getD i default).chips })
          (fun p => rfl) hoob
        simp only [chipSum_def] at hpay
        by_cases h4 : (l.players.getD i default).bet + raw ⊓ (l.players.getD i default).chips
            > l.currentBet
        · rw [if_pos h4] at h
          dsimp only at h
          rw [Except.ok.injEq] at h
          subst h
          simp only [chipSum_def]
          rw [map_chips_updateAt, map_chips_mapWithIdx]
          · exact hpay
          · intro j q
            split <;> rfl
          · intro p
            rfl
        · rw [if_neg h4] at h
          dsimp only at h
          rw [Except.ok.injEq] at h
          subst h
          simp only [chipSum_def]
          rw [map_chips_updateAt]
          · exact hpay
          · intro p
            rfl

theorem chipSum_playerAction (l : Lobby) (sid type : String) (amount : Int) :
    chipSum (Srv.playerAction l sid type amount).1 = chipSum l := by
  rw [Srv.playerAction]
  dsimp only
  split_ifs with h1 h2 h3 h4 h5 h6 h7 h8 h9 h10
  · rfl
  · rfl
  · rfl
  · rfl
  · simp only [chipSum_def]
    rw [map_chips_updateAt]
    intro p
    rfl
  · rw [chipSum_moveToNextTurn]
    simp only [chipSum_def]
    rw [map_chips_updateAt]
    intro p
    rfl
  · rfl
  · rw [chipSum_moveToNextTurn]
    simp only [chipSum_def]
    rw [map_chips_updateAt]
    intro p
    rfl
  · rw [chipSum_moveToNextTurn]
    apply chipSum_payInto
    · intro p
      rfl
    · intro hge
      rw [List.getD_eq_default _ _ hge]
      have hd : (default : Player).chips = 0 := rfl
      omega
  · split
    · rfl
    · next l1 hok =>
      rw [chipSum_moveToNextTurn]
      exact chipSum_betBranch hok
  · rfl

theorem chipSum_applyBlind (l : Lobby) (idx : Nat) (amount : Int) :
    chipSum (Srv.applyBlind l idx amount) = chipSum l := by
  rw [Srv.applyBlind]
  split
  · next h =>
    apply chipSum_payInto l idx _ _ (fun p => rfl)
    intro hge
    omega
  · rfl

theorem winners_eq_filter (l : Lobby) :
    Srv.winners l = l.players.filter (Srv.isWinner l) := by
  rw [Srv.winners, Srv.activePlayers, List.filter_filter]
  apply List.filter_congr
  intro p hp
  rw [Srv.isWinner]
  exact Bool.and_comm _ _

theorem bestRank_mem (l : Lobby) (h : Srv.showdownRanks l ≠ []) :
    Srv.bestRank l ∈ Srv.showdownRanks l := by
  rw [Srv.bestRank]
  rcases List.mem_cons.mp
      (foldBest_mem ((Srv.showdownRanks l).headD []) (Srv.showdownRanks l)) with h1 | h1
  · rw [h1]
    cases hr : Srv.showdownRanks l with
    | nil => exact absurd hr h
    | cons r rs => simp
  · exact h1

theorem bestRank_max (l : Lobby) :
    ∀ r ∈ Srv.showdownRanks l, compareRanks r (Srv.bestRank l) ≤ 0 :=
  (foldBest_le _ _).2

theorem winners_ne_nil (l : Lobby) (h : Srv.activePlayers l ≠ []) : Srv.winners l ≠ [] := by
  have hranks : Srv.showdownRanks l ≠ [] := by
    rw [Srv.showdownRanks]
    simpa using h
  obtain ⟨p, hp, hpr⟩ := List.mem_map.mp (bestRank_mem l hranks)
  rw [Srv.winners]
  intro hnil
  have hmem : p ∈ (Srv.activePlayers l).filter
      (fun p => compareRanks (Srv.rankOf l p) (Srv.bestRank l) == 0) := by
    rw [List.mem_filter]
    refine ⟨hp, ?_⟩
    rw [hpr, compareRanks_self]
    rfl
  rw [hnil] at hmem
  simp at hmem

theorem chipSum_showdownPayout (l : Lobby) (h : Srv.winners l ≠ []) :
    chipSum (Srv.showdownPayout l) = chipSum l := by
  have hcount : ((l.players.countP (Srv.isWinner l) : Nat) : Int)
      = (((Srv.winners l).length : Nat) : Int) := by
    rw [winners_eq_filter, List.countP_eq_length_filter]
  have hany : l.players.any (Srv.isWinner l) = true := by
    rw [List.any_eq_true]
    obtain ⟨w, hw⟩ := List.exists_mem_of_ne_nil _ h
    rw [winners_eq_filter, List.mem_filter] at hw
    exact ⟨w, hw.1, hw.2⟩
  rw [Srv.showdownPayout]
  split
  · next h1 =>
    simp only [chipSum_def]
    rw [payoutGo_sum, hany, hcount, h1]
    simp
  · next h1 =>
    simp only [chipSum_def]
    rw [payoutGo_sum, hany, hcount]
    simp only [Bool.and_true, if_pos]
    ring

theorem chipSum_showdownResolve (l : Lobby) : chipSum (Srv.showdownResolve l) = chipSum l := by
  rw [Srv.showdownResolve]
  split_ifs with h0 h1 h2
  · rfl
  · have hne : l.players ≠ [] := by
      intro hnil
      exact h0 ⟨hnil, h1⟩
    have hd : Srv.dealerSeat l < l.players.length := by
      rw [Srv.dealerSeat]
      have hlen : 0 < l.players.length := List.length_pos.mpr hne
      cases l.dealerIndex with
      | none => exact hlen
      | some d =>
        dsimp only
        split_ifs with hdr
        · omega
        · exact hlen
    simp only [chipSum_def]
    rw [sum_chips_updateAt _ _ _ hd]
    ring
  · have hex : ∃ p ∈ l.players, (!p.folded) = true := by
      have hne : Srv.activePlayers l ≠ [] := by
        intro hnil
        rw [hnil] at h2
        simp at h2
      obtain ⟨p, hp⟩ := List.exists_mem_of_ne_nil _ hne
      rw [Srv.activePlayers, List.mem_filter] at hp
      exact ⟨p, hp.1, hp.2⟩
    have hw : l.players.findIdx (fun p => !p.folded) < l.players.length :=
      List.findIdx_lt_length_of_exists hex
    simp only [chipSum_def]
    rw [sum_chips_updateAt _ _ _ hw]
    ring
  · apply chipSum_showdownPayout
    apply winners_ne_nil
    intro hnil
    rw [hnil] at h1
    simp at h1

/-! ## Further bookkeeping lemmas -/

theorem one_le_length_filter {P : Player → Bool} {ps : List Player} {k : Nat}
    (hk : k < ps.length) (hP : P (ps.getD k default) = true) :
    1 ≤ (ps.filter P).length := by
  have hmem : ps.getD k default ∈ ps := by
    rw [List.getD_eq_getElem _ _ hk]
    exact List.getElem_mem hk
  have hmf : ps.getD k default ∈ ps.filter P := List.mem_filter.mpr ⟨hmem, hP⟩
  have := List.length_pos.mpr (List.ne_nil_of_mem hmf)
  omega

theorem two_le_length_filter {P : Player → Bool} {ps : List Player} {i j : Nat}
    (hi : i < ps.length) (hj : j < ps.length) (hij : i ≠ j)
    (hPi : P (ps.getD i default) = true) (hPj : P (ps.getD j default) = true) :
    2 ≤ (ps.filter P).length := by
  induction ps generalizing i j with
  | nil => simp at hi
  | cons p ps ih =>
    rw [List.filter_cons]
    cases i with
    | zero =>
      cases j with
      | zero => exact absurd rfl hij
      | succ m =>
        rw [List.getD_cons_zero] at hPi
        rw [List.getD_cons_succ] at hPj
        have h1 := @one_le_length_filter P ps m (by simpa using hj) hPj
        simp only [hPi, if_pos, List.length_cons]
        omega
    | succ n =>
      cases j with
      | zero =>
        rw [List.getD_cons_zero] at hPj
        rw [List.getD_cons_succ] at hPi
        have h1 := @one_le_length_filter P ps n (by simpa using hi) hPi
        simp only [hPj, if_pos, List.length_cons]
        omega
      | succ m =>
        have h2 := ih (by simpa using hi) (by simpa using hj) (by omega)
          (by simpa using hPi) (by simpa using hPj)
        split_ifs
        · simp only [List.length_cons]
          omega
        · omega

theorem map_id_of_fixed {f : Char → Char} {s : List Char} (h : ∀ c ∈ s, f c = c) :
    s.map f = s := by
  induction s with
  | nil => rfl
  | cons c cs ih =>
    rw [List.map_cons, h c (List.mem_cons_self c cs),
        ih (fun x hx => h x (List.mem_cons_of_mem c hx))]

theorem showdownPayout_pot (l : Lobby) : (Srv.showdownPayout l).pot = 0 := by
  rw [Srv.showdownPayout]
  dsimp only
  split <;> rfl

/-! ## Field preservation through the `part_000` hand-restart chain -/

theorem P0_applyBlind_roundNumber (l : Lobby) (idx : Nat) (amount : Int) :
    (P0.applyBlind l idx amount).roundNumber = l.roundNumber := by
  rw [P0.applyBlind]; split <;> rfl

theorem P0_applyBlind_status (l : Lobby) (idx : Nat) (amount : Int) :
    (P0.applyBlind l idx amount).status = l.status := by
  rw [P0.applyBlind]; split <;> rfl

theorem P0_applyBlind_phase (l : Lobby) (idx : Nat) (amount : Int) :
    (P0.applyBlind l idx amount).phase = l.phase := by
  rw [P0.applyBlind]; split <;> rfl

theorem P0_initHand_roundNumber (l : Lobby) (d : List Card) :
    (P0.initHand l d).roundNumber = l.roundNumber := by
  rw [P0.initHand]
  dsimp only
  rw [P0_applyBlind_roundNumber, P0_applyBlind_roundNumber]

theorem P0_initHand_status (l : Lobby) (d : List Card) :
    (P0.initHand l d).status = l.status := by
  rw [P0.initHand]
  dsimp only
  rw [P0_applyBlind_status, P0_applyBlind_status]

theorem P0_initHand_phase (l : Lobby) (d : List Card) :
    (P0.initHand l d).phase = "preflop" := by
  rw [P0.initHand]
  dsimp only
  rw [P0_applyBlind_phase, P0_applyBlind_phase]

theorem P0_proceed_roundNumber (l : Lobby) (d : List Card) :
    (P0.proceedAfterHand l d).roundNumber = l.roundNumber + 1 := by
  rw [P0.proceedAfterHand]
  dsimp only
  split_ifs
  · rfl
  · rw [P0_initHand_roundNumber]

theorem P0_proceed_status_phase (l : Lobby) (d : List Card) :
    (P0.proceedAfterHand l d).status = "finished"
    ∨ ((P0.proceedAfterHand l d).phase = "preflop"
        ∧ (P0.proceedAfterHand l d).status = l.status) := by
  rw [P0.proceedAfterHand]
  dsimp only
  split_ifs
  · left; rfl
  · right
    exact ⟨P0_initHand_phase _ _, P0_initHand_status _ _⟩

theorem renorm_roundNumber (l : Lobby) : (renormIndices l).roundNumber = l.roundNumber := rfl

theorem renorm_status (l : Lobby) : (renormIndices l).status = l.status := rfl

theorem renorm_phase (l : Lobby) : (renormIndices l).phase = l.phase := rfl

/-! # Claims -/

/-- C2: chip conservation — `sum(player.chips) + pot` is unchanged by every single
chip-moving operation of `server.js`: blind deduction (`applyBlind`), every
`playerAction` (covering the call and bet/raise branches, and the non-moving
fold/check/rejection paths), and the deferred showdown payout (`showdownResolve`,
which includes the ≥2-player split `showdownPayout`).  No chips are created or
destroyed outside initial chip issuance. -/
theorem chip_conservation_every_operation :
    (∀ (l : Lobby) (idx : Nat) (amount : Int),
      chipSum (Srv.applyBlind l idx amount) = chipSum l)
    ∧ (∀ (l : Lobby) (sid type : String) (amount : Int),
      chipSum (Srv.playerAction l sid type amount).1 = chipSum l)
    ∧ (∀ l : Lobby, chipSum (Srv.showdownResolve l) = chipSum l)
    ∧ (∀ l : Lobby, Srv.winners l ≠ [] → chipSum (Srv.showdownPayout l) = chipSum l) :=
  ⟨chipSum_applyBlind, chipSum_playerAction, chipSum_showdownResolve,
   chipSum_showdownPayout⟩

set_option maxRecDepth 16384 in
/-- C2 witness: conservation instantiated on a concrete showdown lobby. -/
theorem chip_conservation_witness :
    Srv.winners c3Lobby ≠ [] ∧ chipSum (Srv.showdownResolve c3Lobby) = chipSum c3Lobby :=
  ⟨by decide, chip_conservation_every_operation.2.2.1 c3Lobby⟩

/-- C4 counterexample: `compareRanks` does not return a value in `{-1, 0, 1}` — on the
rank tuples `[8, 14]` (royal flush) and `[4, 5]` (wheel) it returns the raw difference
`8 - 4 = 4`. -/
theorem compareRanks_not_sign_normalized :
    compareRanks [8, 14] [4, 5] = 4
    ∧ ¬(compareRanks [8, 14] [4, 5] = -1 ∨ compareRanks [8, 14] [4, 5] = 0
        ∨ compareRanks [8, 14] [4, 5] = 1) := by
  decide

/-- C4 amended: for every pair of rank tuples, the SIGN of `compareRanks a b` encodes the
lexicographic comparison of the two tuples padded with `-1` (missing trailing elements
compare lower than any real value): zero iff the padded tuples are equal, negative iff
`a` is lexicographically below `b`, positive iff above — but the returned value is the
raw first difference, not a member of `{-1, 0, 1}`. -/
theorem compareRanks_sign_trichotomy (a b : List Int) :
    (compareRanks a b = 0
      ↔ padTo a (max a.length b.length) = padTo b (max a.length b.length))
    ∧ (compareRanks a b < 0
      ↔ List.Lex (· < ·) (padTo a (max a.length b.length)) (padTo b (max a.length b.length)))
    ∧ (compareRanks a b > 0
      ↔ List.Lex (· < ·) (padTo b (max a.length b.length))
          (padTo a (max a.length b.length))) := by
  have hlen : (padTo a (max a.length b.length)).length
      = (padTo b (max a.length b.length)).length := by
    rw [padTo_length, padTo_length]
  refine ⟨?_, ?_, ?_⟩
  · rw [compareRanks]
    exact fdz_eq_zero_iff hlen
  · rw [compareRanks]
    exact fdz_neg_iff_lex hlen
  · rw [compareRanks]
    have hswap := fdz_swap (padTo a (max a.length b.length)) (padTo b (max a.length b.length))
    have hlex := @fdz_neg_iff_lex (padTo b (max a.length b.length))
      (padTo a (max a.length b.length)) hlen.symm
    constructor
    · intro hp
      exact hlex.mp (by omega)
    · intro hl
      have := hlex.mpr hl
      omega

/-- C9 counterexample: a present but non-numeric settings value does NOT fall back to the
documented default — `clampInt` maps `NaN` to the range minimum: starting chips become
100 (not 1000), the small blind 1 (not 5), the big blind 2 (not 10). -/
theorem lobbySettings_nonNumeric_cex :
    (lobbySettings (some none) none none none).startChips = 100
    ∧ (lobbySettings (some none) none none none).startChips ≠ 1000
    ∧ (lobbySettings none (some none) (some none) (some none)).smallBlind = 1
    ∧ (lobbySettings none (some none) (some none) (some none)).smallBlind ≠ 5
    ∧ (lobbySettings none none none (some none)).bigBlind = 2
    ∧ (lobbySettings none none none (some none)).bigBlind ≠ 10 := by
  decide

/-- C9 amended: at lobby creation every settings field is clamped into its defensive
range; an ABSENT field falls back to its default (1000 chips, 5 rounds, 5 small blind,
10 big blind), but a present non-numeric (`parseInt → NaN`) field falls back to the
range MINIMUM (100 chips, 1 small blind, 2 big blind) — only `rounds` maps `NaN` to its
default 5. -/
theorem lobbySettings_spec :
    (∀ v lo hi : Int, clampInt (some v) lo hi = max lo (min hi v))
    ∧ (∀ lo hi : Int, clampInt none lo hi = lo)
    ∧ lobbySettings none none none none
        = { startChips := 1000, rounds := 5, smallBlind := 5, bigBlind := 10 }
    ∧ lobbySettings (some none) (some none) (some none) (some none)
        = { startChips := 100, rounds := 5, smallBlind := 1, bigBlind := 2 }
    ∧ (∀ v : Int,
        lobbySettings (some (some v)) (some (some v)) (some (some v)) (some (some v))
        = { startChips := max 100 (min 1000000 v), rounds := max 0 (min 100000 v),
            smallBlind := max 1 (min 100000 v), bigBlind := max 2 (min 200000 v) }) := by
  refine ⟨fun v lo hi => ?_, fun lo hi => ?_, by decide, by decide, fun v => ?_⟩
  · rw [clampInt]
  · rw [clampInt]
    omega
  · rw [lobbySettings]
    rfl

/-! ## Characterizations of the two betting-round completion tests -/

theorem getD_mem_of_lt (ps : List Player) (k : Nat) (h : k < ps.length) :
    ps.getD k default ∈ ps := by
  rw [List.getD_eq_getElem _ _ h]
  exact List.getElem_mem h

theorem bettingRoundComplete_iff (l : Lobby) :
    P0.bettingRoundComplete l = true ↔ completionSpec l := by
  rw [P0.bettingRoundComplete]
  split_ifs with hlen
  · simp only [completionSpec]
    constructor
    · intro _
      exact Or.inl hlen
    · intro _
      trivial
  · rw [List.all_eq_true]
    constructor
    · intro h
      refine Or.inr (fun p hp hpf => ?_)
      have hm := h p (List.mem_filter.mpr ⟨hp, by rw [hpf]; rfl⟩)
      by_cases hc : p.chips = 0
      · exact Or.inl hc
      · rw [if_neg (by simp [hc])] at hm
        rw [Bool.and_eq_true, beq_iff_eq] at hm
        exact Or.inr ⟨hm.1, hm.2⟩
    · intro h p hp
      rcases h with hl | hps
      · exact absurd hl hlen
      · rw [List.mem_filter] at hp
        have hpf : p.folded = false := by simpa using hp.2
        rcases hps p hp.1 hpf with hc | ⟨hb, ha⟩
        · simp [hc]
        · by_cases hc : p.chips = 0
          · simp [hc]
          · rw [if_neg (by simp [hc])]
            rw [Bool.and_eq_true, beq_iff_eq]
            exact ⟨hb, ha⟩

theorem allOthersCalledOrFolded_iff (l : Lobby) :
    Srv.allOthersCalledOrFolded l = true
      ↔ ∀ p ∈ l.players, p.folded = true ∨ p.chips = 0 ∨ p.bet = l.currentBet := by
  rw [Srv.allOthersCalledOrFolded, List.all_eq_true]
  constructor
  · intro h p hp
    have := h p hp
    simp only [Bool.or_eq_true, beq_iff_eq] at this
    tauto
  · intro h p hp
    have := h p hp
    simp only [Bool.or_eq_true, beq_iff_eq]
    tauto

/-- Full field-level description of an accepted `bet` action: the amount is positive,
capped at the stack, moved from chips into the seat's bet and the pot; on a raise the
`currentBet` rises to the new bet and every other non-folded seat's `hasActed` is
cleared; otherwise `currentBet` and all other seats are untouched. -/
theorem betBranch_ok_fields {l : Lobby} {i : Nat} {raw : Int} {l' : Lobby}
    (hi : i < l.players.length) (hok : betBranch l i raw = .ok l') :
    0 < raw
    ∧ (l'.players.getD i default).chips
        = (l.players.getD i default).chips - min raw (l.players.getD i default).chips
    ∧ (l'.players.getD i default).bet
        = (l.players.getD i default).bet + min raw (l.players.getD i default).chips
    ∧ (l'.players.getD i default).folded = (l.players.getD i default).folded
    ∧ (l'.players.getD i default).hasActed = true
    ∧ l'.pot = l.pot + min raw (l.players.getD i default).chips
    ∧ l'.players.length = l.players.length
    ∧ ((l.players.getD i default).bet + min raw (l.players.getD i default).chips
          > l.currentBet →
        l'.currentBet
          = (l.players.getD i default).bet + min raw (l.players.getD i default).chips
        ∧ ∀ j, j < l'.players.length → j ≠ i →
            (l'.players.getD j default).folded = false →
            (l'.players.getD j default).hasActed = false)
    ∧ (¬((l.players.getD i default).bet + min raw (l.players.getD i default).chips
          > l.currentBet) →
        l'.currentBet = l.currentBet
        ∧ ∀ j, j ≠ i → l'.players.getD j default = l.players.getD j default) := by
  rw [betBranch] at hok
  by_cases hr : raw ≤ 0
  · rw [if_pos hr] at hok
    exact absurd hok (by simp)
  · rw [if_neg hr] at hok
    dsimp only at hok
    by_cases h2 : l.currentBet = 0 ∧ raw < l.settings.bigBlind
    · rw [if_pos h2] at hok
      exact absurd hok (by simp)
    · rw [if_neg h2] at hok
      by_cases h3 : l.currentBet > 0
          ∧ raw < 0 ⊔ (l.currentBet - (l.players.getD i default).bet)
      · rw [if_pos h3] at hok
        exact absurd hok (by simp)
      · rw [if_neg h3] at hok
        by_cases h4 : (l.players.getD i default).bet
            + raw ⊓ (l.players.getD i default).chips > l.currentBet
        · rw [if_pos h4] at hok
          dsimp only at hok
          rw [Except.ok.injEq] at hok
          subst hok
          have hlen1 : (updateAt l.players i
              (fun q => { q with
                chips := q.chips - raw ⊓ (l.players.getD i default).chips,
                bet := q.bet + raw ⊓ (l.players.getD i default).chips })).length
              = l.players.length := updateAt_length _ _ _
          have hlen2 : (mapWithIdx
              (fun j q => if !q.folded && decide (j ≠ i) then { q with hasActed := false } else q)
              (updateAt l.players i
                (fun q => { q with
                  chips := q.chips - raw ⊓ (l.players.getD i default).chips,
                  bet := q.bet + raw ⊓ (l.players.getD i default).chips }))).length
              = l.players.length := by
            rw [mapWithIdx_length, hlen1]
          have egi : ∀ y : Player,
              (if !y.folded && decide (i ≠ i) then { y with hasActed := false } else y) = y := by
            intro y
            simp
          refine ⟨by omega, ?_⟩
          rw [updateAt_getD_same _ _ _ (by rw [hlen2]; exact hi),
              mapWithIdx_getD _ _ _ (by rw [hlen1]; exact hi), egi,
              updateAt_getD_same _ _ _ hi]
          refine ⟨rfl, rfl, rfl, rfl, rfl, by simp [updateAt_length, mapWithIdx_length], ?_, ?_⟩
          · intro _
            refine ⟨rfl, fun j hj hji hjf => ?_⟩
            rw [updateAt_length, mapWithIdx_length, hlen1] at hj
            rw [updateAt_getD_other _ _ _ _ hji,
                mapWithIdx_getD _ _ _ (by rw [hlen1]; exact hj),
                updateAt_getD_other _ _ _ _ hji] at hjf ⊢
            split_ifs at hjf ⊢ with hcond
            · rfl
            · exfalso
              rw [List.getD_eq_getElem?_getD] at hcond hjf
              rw [hjf] at hcond
              simp [hji] at hcond
          · intro hcontra
            exact absurd h4 hcontra
        · rw [if_neg h4] at hok
          dsimp only at hok
          rw [Except.ok.injEq] at hok
          subst hok
          have hlen1 : (updateAt l.players i
              (fun q => { q with
                chips := q.chips - raw ⊓ (l.players.getD i default).chips,
                bet := q.bet + raw ⊓ (l.players.getD i default).chips })).length
              = l.players.length := updateAt_length _ _ _
          refine ⟨by omega, ?_⟩
          rw [updateAt_getD_same _ _ _ (by rw [hlen1]; exact hi),
              updateAt_getD_same _ _ _ hi]
          refine ⟨rfl, rfl, rfl, rfl, rfl, by simp [updateAt_length], ?_, ?_⟩
          · intro hcontra
            exact absurd hcontra h4
          · intro _
            refine ⟨rfl, fun j hji => ?_⟩
            rw [updateAt_getD_other _ _ _ _ hji, updateAt_getD_other _ _ _ _ hji]

/-- C1 counterexample: `server.js`'s completion test `allOthersCalledOrFolded` returns
true on a lobby where both non-folded players have matched `currentBet` but have
`hasActed = false` (the big blind has not had its option), so it is NOT true "exactly
when" the claimed condition (which requires `hasActed`) holds. -/
theorem allOthersCalledOrFolded_missing_hasActed :
    Srv.allOthersCalledOrFolded c1Lobby = true ∧ ¬ completionSpec c1Lobby := by
  decide

/-- C1 amended: `part_000`'s `bettingRoundComplete` returns true exactly when every
non-folded player is all-in or has `bet == currentBet` AND `hasActed == true`, with a
single remaining non-folded player trivially complete; `server.js`'s
`allOthersCalledOrFolded` omits the `hasActed` conjunct and the single-player proviso,
returning true exactly when every player is folded, all-in, or has matched `currentBet`.
After a valid raise every other non-folded player's `hasActed` becomes false, so (in the
`part_000` test) the round cannot complete while another non-folded player with chips
remains. -/
theorem bettingRoundComplete_characterization :
    (∀ l : Lobby, P0.bettingRoundComplete l = true ↔ completionSpec l)
    ∧ (∀ l : Lobby, Srv.allOthersCalledOrFolded l = true
        ↔ ∀ p ∈ l.players, p.folded = true ∨ p.chips = 0 ∨ p.bet = l.currentBet)
    ∧ (∀ (l : Lobby) (i : Nat) (raw : Int) (l' : Lobby),
        i < l.players.length →
        (l.players.getD i default).folded = false →
        betBranch l i raw = .ok l' →
        (l.players.getD i default).bet + min raw (l.players.getD i default).chips
          > l.currentBet →
        (∀ j, j < l'.players.length → j ≠ i →
            (l'.players.getD j default).folded = false →
            (l'.players.getD j default).hasActed = false)
        ∧ ((∃ j, j < l'.players.length ∧ j ≠ i
              ∧ (l'.players.getD j default).folded = false
              ∧ (l'.players.getD j default).chips ≠ 0) →
            P0.bettingRoundComplete l' = false)) := by
  refine ⟨bettingRoundComplete_iff, allOthersCalledOrFolded_iff, ?_⟩
  intro l i raw l' hi hfold hok hraise
  obtain ⟨hr0, hchips, hbet, hfolded, hacted, hpot, hlen, hraiseC, hnoR⟩ :=
    betBranch_ok_fields hi hok
  obtain ⟨hcb, hreset⟩ := hraiseC hraise
  refine ⟨hreset, ?_⟩
  rintro ⟨j, hj, hji, hjf, hjc⟩
  rw [Bool.eq_false_iff]
  intro hall
  rw [bettingRoundComplete_iff] at hall
  rcases hall with hlen1 | hps
  · have hi' : i < l'.players.length := by rw [hlen]; exact hi
    have hPi : (!(l'.players.getD i default).folded) = true := by rw [hfolded, hfold]; rfl
    have hPj : (!(l'.players.getD j default).folded) = true := by rw [hjf]; rfl
    have h2 := two_le_length_filter (P := fun p => !p.folded) hi' hj (Ne.symm hji) hPi hPj
    omega
  · rcases hps _ (getD_mem_of_lt _ _ hj) hjf with hc | ⟨-, ha⟩
    · exact hjc hc
    · have hfa := hreset j hj hji hjf
      rw [hfa] at ha
      exact Bool.false_ne_true ha

/-- C1 witness: opening for 50 over `currentBet = 0` in a concrete two-player lobby
leaves the round incomplete under `part_000`'s test. -/
theorem bettingRoundComplete_characterization_witness :
    betBranch c1RaiseLobby 0 50 = .ok c1RaiseResult
    ∧ P0.bettingRoundComplete c1RaiseResult = false :=
  ⟨by decide,
   (bettingRoundComplete_characterization.2.2 c1RaiseLobby 0 50 c1RaiseResult
      (by decide) (by decide) (by decide) (by decide)).2
     ⟨1, by decide, by decide, by decide, by decide⟩⟩

/-- C6: validation and effect of the `bet` action by the current player — a non-positive
amount is rejected; with `currentBet == 0` an amount under the big blind is rejected;
with `currentBet > 0` an amount under `currentBet - player.bet` is rejected; an accepted
amount is capped at the stack and moved from chips into the seat's bet and the pot, the
actor's `hasActed` becomes true, and iff the resulting bet exceeds the prior
`currentBet`, `currentBet` is updated to it and every other non-folded seat's `hasActed`
is reset to false. -/
theorem betAction_validation :
    ∀ (l : Lobby) (i : Nat) (raw : Int), i < l.players.length →
      (raw ≤ 0 → betBranch l i raw = .error "Ange ett giltigt belopp att betta.")
      ∧ (0 < raw → l.currentBet = 0 → raw < l.settings.bigBlind →
          betBranch l i raw
            = .error ("Minsta öppningsbet är " ++ toString l.settings.bigBlind ++ "."))
      ∧ (0 < raw → 0 < l.currentBet →
          raw < l.currentBet - (l.players.getD i default).bet →
          betBranch l i raw = .error ("Du måste minst syna "
            ++ toString (max 0 (l.currentBet - (l.players.getD i default).bet)) ++ "."))
      ∧ (∀ l', betBranch l i raw = .ok l' →
          0 < raw
          ∧ (l'.players.getD i default).chips
              = (l.players.getD i default).chips - min raw (l.players.getD i default).chips
          ∧ (l'.players.getD i default).bet
              = (l.players.getD i default).bet + min raw (l.players.getD i default).chips
          ∧ (l'.players.getD i default).folded = (l.players.getD i default).folded
          ∧ (l'.players.getD i default).hasActed = true
          ∧ l'.pot = l.pot + min raw (l.players.getD i default).chips
          ∧ l'.players.length = l.players.length
          ∧ ((l.players.getD i default).bet + min raw (l.players.getD i default).chips
                > l.currentBet →
              l'.currentBet
                = (l.players.getD i default).bet + min raw (l.players.getD i default).chips
              ∧ ∀ j, j < l'.players.length → j ≠ i →
                  (l'.players.getD j default).folded = false →
                  (l'.players.getD j default).hasActed = false)
          ∧ (¬((l.players.getD i default).bet + min raw (l.players.getD i default).chips
                > l.currentBet) →
              l'.currentBet = l.currentBet
              ∧ ∀ j, j ≠ i → l'.players.getD j default = l.players.getD j default)) := by
  intro l i raw hi
  refine ⟨?_, ?_, ?_, fun l' hok => betBranch_ok_fields hi hok⟩
  · intro hr
    rw [betBranch, if_pos hr]
  · intro hr hc0 hlt
    rw [betBranch, if_neg (by omega)]
    dsimp only
    rw [if_pos ⟨hc0, hlt⟩]
  · intro hr hcb hlt
    rw [betBranch, if_neg (by omega)]
    dsimp only
    rw [if_neg (by rintro ⟨hc0, -⟩; omega), if_pos ⟨hcb, by omega⟩]

/-- C6 witness: the concrete 50-chip open moves 50 chips from the seat into its bet and
the pot. -/
theorem betAction_validation_witness :
    betBranch c1RaiseLobby 0 50 = .ok c1RaiseResult
    ∧ (c1RaiseResult.players.getD 0 default).chips
        = (c1RaiseLobby.players.getD 0 default).chips
          - min 50 (c1RaiseLobby.players.getD 0 default).chips
    ∧ c1RaiseResult.pot
        = c1RaiseLobby.pot + min 50 (c1RaiseLobby.players.getD 0 default).chips := by
  have h := (betAction_validation c1RaiseLobby 0 50 (by decide)).2.2.2 c1RaiseResult (by decide)
  exact ⟨by decide, h.2.1, h.2.2.2.2.2.1⟩

/-- C7: every rejected `playerAction` (wrong turn, already folded, illegal check,
invalid bet amount, unrecognized type) emits an `errorMessage` to the acting socket only
and leaves the lobby state completely unchanged; in particular an action from a
non-current seat is rejected with "Det är inte din tur." and an unrecognized action type
with "Ogiltig action.". -/
theorem playerAction_reject_no_mutation :
    ∀ (l : Lobby) (sid type : String) (amount : Int),
      ((Srv.playerAction l sid type amount).2.isSome = true →
        (Srv.playerAction l sid type amount).1 = l)
      ∧ (l.status = "playing" →
          l.players.findIdx (fun p => p.socketId == sid) < l.players.length →
          l.currentPlayerIndex
            ≠ some ((l.players.findIdx (fun p => p.socketId == sid) : Nat) : Int) →
          Srv.playerAction l sid type amount = (l, some "Det är inte din tur."))
      ∧ (l.status = "playing" →
          l.players.findIdx (fun p => p.socketId == sid) < l.players.length →
          l.currentPlayerIndex
            = some ((l.players.findIdx (fun p => p.socketId == sid) : Nat) : Int) →
          (l.players.getD (l.players.findIdx (fun p => p.socketId == sid)) default).folded
            = false →
          type ≠ "fold" → type ≠ "check" → type ≠ "call" → type ≠ "bet" →
          Srv.playerAction l sid type amount = (l, some "Ogiltig action.")) := by
  refine fun l sid type amount => ⟨?_, ?_, ?_⟩
  · rw [Srv.playerAction]
    dsimp only
    split_ifs
    · intro hs; simp at hs
    · intro hs; simp at hs
    · intro _; rfl
    · intro _; rfl
    · intro hs; simp at hs
    · intro hs; simp at hs
    · intro _; rfl
    · intro hs; simp at hs
    · intro hs; simp at hs
    · split
      · intro _; rfl
      · intro hs; simp at hs
    · intro _; rfl
  · intro hst hlt hne
    rw [Srv.playerAction]
    dsimp only
    rw [if_neg (not_not_intro hst), if_neg (by omega), if_pos hne]
  · intro hst hlt heq hfold htf htc htca htb
    rw [Srv.playerAction]
    dsimp only
    rw [if_neg (not_not_intro hst), if_neg (by omega),
        if_neg (not_not_intro heq), if_neg (by rw [hfold]; simp),
        if_neg htf, if_neg htc, if_neg htca, if_neg htb]

/-- C7 witness: seat 0 acting while seat 1 is the current player is rejected with an
error and no state change. -/
theorem playerAction_reject_witness :
    Srv.playerAction c7Lobby "a" "call" 0 = (c7Lobby, some "Det är inte din tur.") :=
  (playerAction_reject_no_mutation c7Lobby "a" "call" 0).2.1 (by decide) (by decide)
    (by decide)

/-- C3: at a showdown with ≥2 active players, `bestRank` is a maximum of the evaluated
ranks; the winner set is exactly the active players whose rank ties the maximum (and is
the same for ANY maximum, so it is well-defined); it is non-empty; the payout zeroes the
pot, pays out exactly the pot in total, and distributes
`share = Math.floor(pot / winners.length)` per winner with the remainder
`pot - share * winners.length` to the first winner in iteration order. -/
theorem showdown_winners_and_payout :
    ∀ l : Lobby, 2 ≤ (Srv.activePlayers l).length →
      (Srv.bestRank l ∈ Srv.showdownRanks l
        ∧ ∀ r ∈ Srv.showdownRanks l, compareRanks r (Srv.bestRank l) ≤ 0)
      ∧ (∀ b ∈ Srv.showdownRanks l, (∀ r ∈ Srv.showdownRanks l, compareRanks r b ≤ 0) →
          Srv.winners l
            = (Srv.activePlayers l).filter (fun p => compareRanks (Srv.rankOf l p) b == 0))
      ∧ Srv.winners l ≠ []
      ∧ (Srv.showdownPayout l).pot = 0
      ∧ ((Srv.showdownPayout l).players.map Player.chips).sum
          = (l.players.map Player.chips).sum + l.pot
      ∧ (Srv.showdownPayout l).players
          = Srv.payoutGo (Int.fdiv l.pot ((Srv.winners l).length : Int))
              (l.pot - Int.fdiv l.pot ((Srv.winners l).length : Int)
                * ((Srv.winners l).length : Int))
              (Srv.isWinner l) l.players true := by
  intro l hact
  have hane : Srv.activePlayers l ≠ [] := by
    intro h
    rw [h] at hact
    simp at hact
  have hrne : Srv.showdownRanks l ≠ [] := by
    rw [Srv.showdownRanks]
    simpa using hane
  have hmem := bestRank_mem l hrne
  have hmax := bestRank_max l
  have hwne := winners_ne_nil l hane
  refine ⟨⟨hmem, hmax⟩, ?_, hwne, showdownPayout_pot l, ?_, ?_⟩
  · intro b hb hbmax
    have h1 : compareRanks b (Srv.bestRank l) ≤ 0 := hmax b hb
    have h2 : compareRanks (Srv.bestRank l) b ≤ 0 := hbmax _ hmem
    have h0 : compareRanks b (Srv.bestRank l) = 0 := by
      have := compareRanks_swap b (Srv.bestRank l)
      omega
    rw [Srv.winners]
    apply List.filter_congr
    intro p hp
    rw [compareRanks_congr_right (Srv.rankOf l p) h0]
  · have hcons := chipSum_showdownPayout l hwne
    rw [chipSum_def, chipSum_def, showdownPayout_pot l] at hcons
    omega
  · rw [Srv.showdownPayout]
    dsimp only
    split_ifs with h1
    · rw [h1]
      norm_num [Int.fdiv_one]
    · rfl

set_option maxRecDepth 16384 in
/-- C3 witness: a concrete two-player showdown pays out the whole 200-chip pot and
leaves the pot empty. -/
theorem showdown_winners_and_payout_witness :
    2 ≤ (Srv.activePlayers c3Lobby).length
    ∧ (Srv.showdownPayout c3Lobby).pot = 0
    ∧ ((Srv.showdownPayout c3Lobby).players.map Player.chips).sum
        = (c3Lobby.players.map Player.chips).sum + c3Lobby.pot :=
  ⟨by decide, (showdown_winners_and_payout c3Lobby (by decide)).2.2.2.1,
   (showdown_winners_and_payout c3Lobby (by decide)).2.2.2.2.1⟩

/-- C5: every 5-card wheel (A-2-3-4-5, mixed suits, no flush) evaluates to the straight
rank `[4, 5]` (category 4, high card 5), strictly below the 6-high straight `[4, 6]`
under `compareRanks`; and a concrete 6-high straight indeed ranks `[4, 6]`. -/
theorem wheel_straight_rank :
    (∀ cards : List Card,
      (cards.map (fun c => RANK_VAL c.r)).Perm [14, 5, 4, 3, 2] →
      isFlushB cards = false →
      rank5 cards = [4, 5] ∧ compareRanks (rank5 cards) [4, 6] < 0)
    ∧ rank5 sixHighHand = [4, 6] := by
  refine ⟨?_, by decide⟩
  intro cards hperm hflush
  have hsorted : List.Sorted (· ≥ ·) ([14, 5, 4, 3, 2] : List Int) := by decide
  have hranks : sortDesc (cards.map (fun c => RANK_VAL c.r)) = [14, 5, 4, 3, 2] :=
    sortDesc_eq_of_perm hperm hsorted
  have h5 : rank5 cards = rank5Ranks [14, 5, 4, 3, 2] (isFlushB cards) := by
    rw [rank5, hranks]
  rw [h5, hflush]
  exact ⟨by decide, by decide⟩

/-- C5 witness: the concrete wheel hand ranks `[4, 5]`, strictly below `[4, 6]`. -/
theorem wheel_straight_rank_witness :
    rank5 wheelHand = [4, 5] ∧ compareRanks (rank5 wheelHand) [4, 6] < 0 :=
  wheel_straight_rank.1 wheelHand (by decide) (by decide)

/-- C10 (implicit): generated lobby ids use only uppercase letters and digits, and
`joinLobby` uppercases the requested id before lookup, so a join request differing from
a live joinable lobby's id only in letter case resolves to that lobby and succeeds. -/
theorem joinLobby_case_insensitive :
    (∀ randoms : List Nat, ∀ c ∈ generateLobbyId randoms, c ∈ LOBBY_ID_CHARS)
    ∧ (∀ (lobbies : List (List Char × Lobby)) (id req : List Char) (lobby : Lobby)
        (name sid : String),
        List.lookup id lobbies = some lobby →
        (∀ c ∈ id, c ∈ LOBBY_ID_CHARS) →
        toUpperStr req = toUpperStr id →
        lobby.status = "lobby" →
        lobby.players.length < 4 →
        joinLobby lobbies req name sid
          = .ok ({ lobby with players := lobby.players
                ++ [makePlayer sid (if name = "" then "Spelare" else name) false
                      lobby.settings.startChips] },
              makePlayer sid (if name = "" then "Spelare" else name) false
                lobby.settings.startChips)) := by
  constructor
  · intro randoms c hc
    rw [generateLobbyId] at hc
    obtain ⟨i, hi, hgd⟩ := List.mem_map.mp hc
    have hlt : (randoms.getD i 0) % LOBBY_ID_CHARS.length < LOBBY_ID_CHARS.length :=
      Nat.mod_lt _ (by decide)
    rw [← hgd, List.getD_eq_getElem _ _ hlt]
    exact List.getElem_mem hlt
  · intro lobbies id req lobby name sid hlook hchars hcase hstat hlen
    have hall : ∀ c ∈ LOBBY_ID_CHARS, jsToUpperChar c = c := by decide
    have hupper : toUpperStr id = id :=
      map_id_of_fixed (fun c hc => hall c (hchars c hc))
    rw [joinLobby, hcase, hupper, hlook]
    dsimp only
    rw [if_neg (not_not_intro hstat), if_neg (by omega)]

/-- C10 witness: joining `"ab2cd"` reaches the lobby whose id is `"AB2CD"`. -/
theorem joinLobby_case_insensitive_witness :
    joinLobby [("AB2CD".toList, c10Lobby)] "ab2cd".toList "N" "s9"
      = .ok ({ c10Lobby with players := c10Lobby.players
            ++ [makePlayer "s9" (if ("N" : String) = "" then "Spelare" else "N") false
                  c10Lobby.settings.startChips] },
          makePlayer "s9" (if ("N" : String) = "" then "Spelare" else "N") false
            c10Lobby.settings.startChips) :=
  joinLobby_case_insensitive.2 [("AB2CD".toList, c10Lobby)] "AB2CD".toList "ab2cd".toList
    c10Lobby "N" "s9" (by decide) (by decide) (by decide) (by decide) (by decide)

/-! ## Helpers for the removal claim -/

theorem hostTransfer_status (l : Lobby) (w : Bool) : (hostTransfer l w).status = l.status := by
  rw [hostTransfer]
  split <;> rfl

theorem hostTransfer_roundNumber (l : Lobby) (w : Bool) :
    (hostTransfer l w).roundNumber = l.roundNumber := by
  rw [hostTransfer]
  split <;> rfl

theorem hostTransfer_pot (l : Lobby) (w : Bool) : (hostTransfer l w).pot = l.pot := by
  rw [hostTransfer]
  split <;> rfl

theorem hostTransfer_players_length (l : Lobby) (w : Bool) :
    (hostTransfer l w).players.length = l.players.length := by
  rw [hostTransfer]
  split
  · exact updateAt_length _ _ _
  · rfl

theorem hostTransfer_map_chips (l : Lobby) (w : Bool) :
    (hostTransfer l w).players.map Player.chips = l.players.map Player.chips := by
  rw [hostTransfer]
  split
  · exact map_chips_updateAt _ _ _ (fun p => rfl)
  · rfl

theorem winnerIdx_lt (l : Lobby) (h : 0 < l.players.length) :
    P0.winnerIdx l < l.players.length := by
  rw [P0.winnerIdx]
  split_ifs with hj
  · exact hj
  · exact h

/-- C8 counterexample: in `server.js`, removing a player mid-hand never awards the pot —
after "b" disconnects from a two-player hand with a 30-chip pot, the pot is still 30,
the remaining player's chips are unchanged, and no hand-completion (round increment)
ran. -/
theorem removePlayer_no_award_cex :
    (Srv.removePlayerFromLobby c8Lobby "b").map Lobby.pot = some 30
    ∧ (Srv.removePlayerFromLobby c8Lobby "b").map (fun l => l.players.map Player.chips)
        = some [985]
    ∧ (Srv.removePlayerFromLobby c8Lobby "b").map Lobby.roundNumber = some 0 := by
  decide

/-- C8 amended: in the `part_000` variant, removing a player from a playing lobby that
leaves at most one non-folded player immediately awards the entire pot to the remaining
non-folded player (seat 0 if none) and runs the hand-completion sequence — round-number
increment, end-of-game check, and next hand (fresh preflop) or finish; the seat indices
are then re-normalised.  In `server.js`, `removePlayerFromLobby` performs NO pot award:
it only splices the seat, transfers the host, and re-normalises indices, leaving the
pot, all chip counts and the round number unchanged. -/
theorem removePlayer_remaining_award :
    (∀ (l : Lobby) (sid : String) (freshDeck : List Card) (i : Nat) (m : Lobby),
      i = l.players.findIdx (fun p => p.socketId == sid) →
      m = hostTransfer (spliceAt l i) ((l.players.getD i default).socketId == l.hostId) →
      i < l.players.length →
      2 ≤ l.players.length →
      l.status = "playing" →
      (m.players.filter (fun p => !p.folded)).length ≤ 1 →
      P0.removePlayerFromLobby l sid freshDeck
        = some (renormIndices (P0.proceedAfterHand (P0.awardPotToRemaining m) freshDeck))
      ∧ (P0.awardPotToRemaining m).pot = 0
      ∧ (P0.awardPotToRemaining m).players.getD (P0.winnerIdx m) default
          = { m.players.getD (P0.winnerIdx m) default with
              chips := (m.players.getD (P0.winnerIdx m) default).chips + m.pot }
      ∧ (renormIndices (P0.proceedAfterHand (P0.awardPotToRemaining m) freshDeck)).roundNumber
          = l.roundNumber + 1
      ∧ ((renormIndices (P0.proceedAfterHand (P0.awardPotToRemaining m) freshDeck)).status
            = "finished"
         ∨ ((renormIndices (P0.proceedAfterHand (P0.awardPotToRemaining m) freshDeck)).phase
              = "preflop"
            ∧ (renormIndices (P0.proceedAfterHand (P0.awardPotToRemaining m) freshDeck)).status
              = "playing")))
    ∧ (∀ (l : Lobby) (sid : String) (l' : Lobby),
        Srv.removePlayerFromLobby l sid = some l' →
        l'.pot = l.pot
        ∧ l'.players.map Player.chips
            = (l.players.eraseIdx (l.players.findIdx (fun p => p.socketId == sid))).map
                Player.chips
        ∧ l'.roundNumber = l.roundNumber) := by
  constructor
  · intro l sid freshDeck i m hieq hmeq hi hlen hstat hcount
    have hsplice : (spliceAt l i).players.length = l.players.length - 1 := by
      rw [spliceAt]
      rw [List.length_eraseIdx]
      simp [hi]
    have hm1 : 0 < m.players.length := by
      rw [hmeq, hostTransfer_players_length, hsplice]
      omega
    have hmstat : m.status = "playing" := by
      rw [hmeq, hostTransfer_status]
      exact hstat
    have hmain : P0.removePlayerFromLobby l sid freshDeck
        = some (renormIndices (P0.proceedAfterHand (P0.awardPotToRemaining m) freshDeck)) := by
      rw [P0.removePlayerFromLobby]
      dsimp only
      rw [if_neg (by omega)]
      rw [if_neg (by rw [← hieq, hsplice]; omega)]
      rw [← hieq, ← hmeq, if_pos ⟨hmstat, hcount⟩]
    refine ⟨hmain, rfl, ?_, ?_, ?_⟩
    · rw [P0.awardPotToRemaining]
      dsimp only
      rw [updateAt_getD_same _ _ _ (winnerIdx_lt m hm1)]
    · rw [renorm_roundNumber, P0_proceed_roundNumber]
      have : (P0.awardPotToRemaining m).roundNumber = m.roundNumber := rfl
      rw [this, hmeq, hostTransfer_roundNumber]
      rfl
    · rcases P0_proceed_status_phase (P0.awardPotToRemaining m) freshDeck with h | ⟨h1, h2⟩
      · left
        rw [renorm_status]
        exact h
      · right
        rw [renorm_phase, renorm_status]
        refine ⟨h1, ?_⟩
        rw [h2]
        have : (P0.awardPotToRemaining m).status = m.status := rfl
        rw [this, hmstat]
  · intro l sid l' h
    rw [Srv.removePlayerFromLobby] at h
    dsimp only at h
    by_cases h1 : l.players.findIdx (fun p => p.socketId == sid) = l.players.length
    · rw [if_pos h1] at h
      rw [Option.some.injEq] at h
      subst h
      refine ⟨rfl, ?_, rfl⟩
      rw [List.eraseIdx_of_length_le (by omega)]
    · rw [if_neg h1] at h
      by_cases h2 : (spliceAt l (l.players.findIdx (fun p => p.socketId == sid))).players.length
          = 0
      · rw [if_pos h2] at h
        simp at h
      · rw [if_neg h2] at h
        rw [Option.some.injEq] at h
        subst h
        refine ⟨?_, ?_, ?_⟩
        · show (hostTransfer _ _).pot = l.pot
          rw [hostTransfer_pot]
          rfl
        · show (hostTransfer _ _).players.map Player.chips = _
          rw [hostTransfer_map_chips]
          rfl
        · show (hostTransfer _ _).roundNumber = l.roundNumber
          rw [hostTransfer_roundNumber]
          rfl

/-- C8 witness: removing "b" from the concrete two-player hand awards the 30-chip pot
to the remaining player and runs the completion sequence (round 0 → 1). -/
theorem removePlayer_remaining_award_witness :
    P0.removePlayerFromLobby c8Lobby "b" []
      = some (renormIndices (P0.proceedAfterHand (P0.awardPotToRemaining
          (hostTransfer (spliceAt c8Lobby 1) false)) []))
    ∧ (P0.awardPotToRemaining (hostTransfer (spliceAt c8Lobby 1) false)).pot = 0
    ∧ (renormIndices (P0.proceedAfterHand (P0.awardPotToRemaining
          (hostTransfer (spliceAt c8Lobby 1) false)) [])).roundNumber
        = c8Lobby.roundNumber + 1 := by
  have h := removePlayer_remaining_award.1 c8Lobby "b" [] 1
    (hostTransfer (spliceAt c8Lobby 1) false) (by decide) (by decide) (by decide)
    (by decide) (by decide) (by decide)
  exact ⟨h.1, h.2.1, h.2.2.2.1⟩

end Holdem
